import Mathlib

/-!
Verification of the codeagent-wrapper core against its specification.

Go strings are modelled as `List Char` (one `Char` per byte of the Go
string; all strings exercised here are ASCII, where Go's byte-wise
operations and the per-character model agree).  Pure Go functions become
Lean functions; OS facilities that the code reaches through injectable
hooks (file stat, symlink resolution, process inspection, environment
variables) become explicit function-typed parameters, mirroring the
test hooks of the source.
-/

set_option maxRecDepth 16000

set_option maxHeartbeats 1600000

namespace CodeagentWrapper

/-- Convert a Lean string literal to the `List Char` representation used
for Go strings throughout this development. -/
def gs (s : String) : List Char := s.data

/-- Decimal representation of a natural number, as a Go string
(mirrors the `%d` verb of `fmt.Sprintf`). -/
def natChars (n : Nat) : List Char := (Nat.repr n).data

/-- ASCII whitespace recognized by Go's `strings.TrimSpace` /
`bytes.TrimSpace` (the inputs in scope are ASCII). -/
def isSpaceChar (c : Char) : Bool :=
  c = Char.ofNat 32 || c = Char.ofNat 9 || c = Char.ofNat 10 ||
  c = Char.ofNat 13 || c = Char.ofNat 11 || c = Char.ofNat 12

/-- Go `strings.TrimSpace`: drop leading and trailing whitespace. -/
def trimChars (l : List Char) : List Char :=
  ((l.dropWhile isSpaceChar).reverse.dropWhile isSpaceChar).reverse

/-- ASCII lower-casing, the fragment of Go `strings.ToLower` exercised
by the flag values in scope. -/
def asciiLower (c : Char) : Char :=
  if 'A' ≤ c ∧ c ≤ 'Z' then Char.ofNat (c.toNat + 32) else c

/-- Go `strings.ToLower` on the ASCII fragment. -/
def lowerChars (l : List Char) : List Char := l.map asciiLower

/-- `needle` occurs contiguously inside `hay` (used to state that a log
message "includes" a preview). -/
def containsSeg (needle hay : List Char) : Prop :=
  ∃ pre post, hay = pre ++ needle ++ post

theorem containsSeg_length_le {needle hay : List Char}
    (h : containsSeg needle hay) : needle.length ≤ hay.length := by
  obtain ⟨pre, post, rfl⟩ := h
  simp only [List.length_append]
  omega

/-- `leadsWith sep l` is true when `sep` is an initial segment of `l`
(the occurrence test inside Go's `strings.Split`). -/
def leadsWith : List Char → List Char → Bool
  | [], _ => true
  | _ :: _, [] => false
  | a :: as, b :: bs => a = b && leadsWith as bs

/-- Locate the first occurrence of `sep` in `l`, returning the segment
before it and the remainder after it (Go `strings.Index` + slicing). -/
def breakSep (sep : List Char) : List Char → Option (List Char × List Char)
  | [] => none
  | c :: rest =>
    if leadsWith sep (c :: rest) then some ([], (c :: rest).drop sep.length)
    else
      match breakSep sep rest with
      | none => none
      | some (pre, post) => some (c :: pre, post)

/-- Fuel-driven body of Go `strings.Split` for a non-empty separator.
The fuel is only a structural-termination device; `splitSep` always
supplies enough. -/
def splitSepF (sep : List Char) : Nat → List Char → List (List Char)
  | 0, l => [l]
  | fuel + 1, l =>
    match breakSep sep l with
    | none => [l]
    | some (pre, post) => pre :: splitSepF sep fuel post

/-- Go `strings.Split s sep` for a non-empty separator. -/
def splitSep (sep l : List Char) : List (List Char) :=
  splitSepF sep (l.length + 1) l

/-- Go `strings.SplitN s sep 2` for a non-empty separator: split at the
first occurrence only. -/
def splitN2 (sep l : List Char) : List (List Char) :=
  match breakSep sep l with
  | none => [l]
  | some (pre, post) => [pre, post]

/-! ## Stdin heuristic (executor.ShouldUseStdin and its caller)

Source: `ShouldUseStdin` in the executor package and the derivation
`useStdin := cfg.ExplicitStdin || shouldUseStdin(taskText, piped)` in
`runSingleMode` (internal/app/cli.go). -/

/-- The characters `"\n\\\"'` backtick `$"` of the Go constant
`stdinSpecialChars`, written by code point: newline, backslash, double
quote, single quote, backtick, dollar. -/
def stdinSpecialChars : List Char :=
  [Char.ofNat 10, Char.ofNat 92, Char.ofNat 34,
   Char.ofNat 39, Char.ofNat 96, Char.ofNat 36]

/-- `executor.ShouldUseStdin`: piped input, task text longer than 800
bytes, or any special character forces stdin. -/
def shouldUseStdin (taskText : List Char) (piped : Bool) : Bool :=
  if piped then true
  else if taskText.length > 800 then true
  else taskText.any (fun c => stdinSpecialChars.contains c)

/-- The `useStdin` derivation of `runSingleMode` (cli.go):
`cfg.ExplicitStdin || shouldUseStdin(taskText, piped)`, where
`ExplicitStdin` records that the task argument was the literal `-`. -/
def deriveUseStdin (explicitStdin : Bool) (taskText : List Char)
    (piped : Bool) : Bool :=
  explicitStdin || shouldUseStdin taskText piped

/-- Claim C6: for every task text and piped-input flag, the derived
`use_stdin` value is true iff stdin is piped, or stdin was explicitly
requested with the literal `-`, or the task text is longer than 800
bytes, or the text contains one of newline, backslash, double quote,
single quote, backtick, dollar. -/
theorem useStdin_iff (explicitStdin : Bool) (taskText : List Char)
    (piped : Bool) :
    deriveUseStdin explicitStdin taskText piped = true ↔
      piped = true ∨ explicitStdin = true ∨ 800 < taskText.length ∨
        ∃ c ∈ taskText, c ∈ stdinSpecialChars := by
  cases piped <;> cases explicitStdin <;>
      by_cases hl : taskText.length > 800 <;>
    simp [deriveUseStdin, shouldUseStdin, hl, List.any_eq_true,
      List.contains]

/-! ## Parallel-mode exit-code aggregation (runParallelMode, cli.go)

Source: the final loop of `runParallelMode`:
`exitCode := 0; for _, res := range results { if res.ExitCode != 0 { exitCode = res.ExitCode } }`.
The executor emits `results` in the batch's insertion order. -/

/-- `executor.TaskResult` (the fields relevant to exit-code
aggregation; the derived reporting fields are advisory and omitted). -/
structure TaskResult where
  taskID : List Char := []
  exitCode : Int := 0
  message : List Char := []
  sessionID : List Char := []
  errText : List Char := []
  deriving Repr, DecidableEq

/-- The exit-code aggregation loop at the end of `runParallelMode`. -/
def parallelExitCode (results : List TaskResult) : Int :=
  results.foldl (fun acc r => if r.exitCode ≠ 0 then r.exitCode else acc) 0

/-- Specification-side description: the exit code of the last result in
list (insertion) order whose exit code is non-zero, and `0` when there
is none. -/
def lastNonZeroExit (results : List TaskResult) : Int :=
  match results.reverse.find? (fun r => decide (r.exitCode ≠ 0)) with
  | some r => r.exitCode
  | none => 0

theorem parallelExitCode_append (xs : List TaskResult) (x : TaskResult) :
    parallelExitCode (xs ++ [x]) =
      if x.exitCode ≠ 0 then x.exitCode else parallelExitCode xs := by
  simp [parallelExitCode, List.foldl_append]

/-- Claim C4: in parallel mode, if every TaskResult has exit code 0 the
wrapper exits with code 0; otherwise the wrapper's exit code equals the
exit code of the last task, in the batch's insertion order, whose exit
code is non-zero. -/
theorem parallelExitCode_spec (results : List TaskResult) :
    parallelExitCode results = lastNonZeroExit results ∧
    ((∀ r ∈ results, r.exitCode = 0) → parallelExitCode results = 0) := by
  constructor
  · induction results using List.reverseRecOn with
    | nil => rfl
    | append_singleton xs x ih =>
      rw [parallelExitCode_append]
      by_cases hx : x.exitCode ≠ 0
      · simp [lastNonZeroExit, hx, List.find?]
      · simp only [lastNonZeroExit, List.reverse_append, List.reverse_cons,
          List.reverse_nil, List.nil_append, List.cons_append, List.find?]
        simp only [ne_eq, not_not] at hx
        simp [hx, ih, lastNonZeroExit]
  · induction results using List.reverseRecOn with
    | nil => intro _; rfl
    | append_singleton xs x ih =>
      intro hall
      rw [parallelExitCode_append]
      have hx : x.exitCode = 0 := hall x (by simp)
      rw [hx, if_neg (by simp)]
      exact ih (fun r hr => hall r (by simp [hr]))

/-- Sample batch: exit codes 2, 0, 3, 0 in insertion order. -/
def c4Sample : List TaskResult :=
  [{ taskID := gs "a", exitCode := 2 }, { taskID := gs "b" },
   { taskID := gs "c", exitCode := 3 }, { taskID := gs "d" }]

theorem parallelExitCode_spec_witness :
    parallelExitCode c4Sample = 3 ∧ lastNonZeroExit c4Sample = 3 ∧
      (parallelExitCode c4Sample = lastNonZeroExit c4Sample ∧
        ((∀ r ∈ c4Sample, r.exitCode = 0) → parallelExitCode c4Sample = 0)) :=
  ⟨by decide, by decide, parallelExitCode_spec c4Sample⟩

/-! ## Codex argument builder (backend.BuildCodexArgs, codex.go)

The environment lookup of `config.EnvFlagDefaultTrue` is passed in as an
explicit function, mirroring `os.LookupEnv`.  The `logErrorFn` /
`logWarnFn` calls of the source are logging side effects invisible to
the caller and are not part of the returned value. -/

/-- `config.Config` (config.go). -/
structure Config where
  Mode : List Char := []
  Task : List Char := []
  SessionID : List Char := []
  WorkDir : List Char := []
  Model : List Char := []
  ReasoningEffort : List Char := []
  ExplicitStdin : Bool := false
  Timeout : Int := 0
  Backend : List Char := []
  Agent : List Char := []
  PromptFile : List Char := []
  PromptFileExplicit : Bool := false
  SkipPermissions : Bool := false
  Yolo : Bool := false
  MaxParallelWorkers : Int := 0
  deriving Repr, DecidableEq

/-- `config.ParseBoolFlag` (config.go). -/
def parseBoolFlag (val : List Char) (defaultValue : Bool) : Bool :=
  let v := lowerChars (trimChars val)
  if v = gs "1" ∨ v = gs "true" ∨ v = gs "yes" ∨ v = gs "on" then true
  else if v = gs "0" ∨ v = gs "false" ∨ v = gs "no" ∨ v = gs "off" then false
  else defaultValue

/-- `config.EnvFlagDefaultTrue` (config.go): true unless the variable is
explicitly set to a falsey value. -/
def envFlagDefaultTrue (env : List Char → Option (List Char))
    (key : List Char) : Bool :=
  match env key with
  | none => true
  | some v => parseBoolFlag v true

/-- `backend.BuildCodexArgs` (codex.go).  In the source, resume mode
with a whitespace-only session ID logs an error and clears `isResume`;
here that is the conjunct `trimChars cfg.SessionID ≠ []`. -/
def buildCodexArgs (env : List Char → Option (List Char)) (cfg : Config)
    (targetArg : List Char) : List (List Char) :=
  let resumeSessionID := trimChars cfg.SessionID
  let args : List (List Char) := [gs "e"]
  let args := if cfg.Yolo = true ∨
      envFlagDefaultTrue env (gs "CODEX_BYPASS_SANDBOX") = true then
    args ++ [gs "--dangerously-bypass-approvals-and-sandbox"] else args
  let args := if trimChars cfg.Model ≠ [] then
    args ++ [gs "--model", trimChars cfg.Model] else args
  let args := if trimChars cfg.ReasoningEffort ≠ [] then
    args ++ [gs "-c", gs "model_reasoning_effort=" ++ trimChars cfg.ReasoningEffort]
    else args
  let args := args ++ [gs "--skip-git-repo-check"]
  if cfg.Mode = gs "resume" ∧ resumeSessionID ≠ [] then
    args ++ [gs "--json", gs "resume", resumeSessionID, targetArg]
  else
    args ++ [gs "-C", cfg.WorkDir, gs "--json", targetArg]

theorem mem_ite_extend {α : Type} (c : Prop) [Decidable c]
    (l t : List α) (x : α) :
    (x ∈ (if c then l ++ t else l)) ↔ x ∈ l ∨ (c ∧ x ∈ t) := by
  split <;> rename_i h <;> simp [List.mem_append, h]

theorem mem_ite_extend' {α : Type} (c : Prop) [Decidable c]
    (l t : List α) (x : α) :
    (x ∈ (if c then l else l ++ t)) ↔ x ∈ l ∨ (¬c ∧ x ∈ t) := by
  split <;> rename_i h <;> simp [List.mem_append, h]

/-- Claim C10: for every config whose Mode is "resume" but whose
SessionID is empty or whitespace-only, BuildCodexArgs does not fail: it
falls back to the new-mode argument vector, containing `-C <workdir>`
and (when no input string is itself the word "resume") no "resume"
token, so the caller receives ordinary new-mode argv with no error. -/
theorem buildCodexArgs_emptySessionFallback
    (env : List Char → Option (List Char)) (cfg : Config)
    (targetArg : List Char) (h1 : cfg.Mode = gs "resume")
    (h2 : trimChars cfg.SessionID = []) :
    buildCodexArgs env cfg targetArg =
      buildCodexArgs env { cfg with Mode := gs "new" } targetArg ∧
    (∃ pre, buildCodexArgs env cfg targetArg =
      pre ++ [gs "-C", cfg.WorkDir, gs "--json", targetArg]) ∧
    (trimChars cfg.Model ≠ gs "resume" → cfg.WorkDir ≠ gs "resume" →
      targetArg ≠ gs "resume" →
      gs "resume" ∉ buildCodexArgs env cfg targetArg) := by
  have hres : ¬(cfg.Mode = gs "resume" ∧ trimChars cfg.SessionID ≠ []) := by
    simp [h2]
  have hnew : ¬(({ cfg with Mode := gs "new" } : Config).Mode = gs "resume" ∧
      trimChars ({ cfg with Mode := gs "new" } : Config).SessionID ≠ []) := by
    simp [h2]
  refine ⟨?_, ?_, ?_⟩
  · simp only [buildCodexArgs]
    rw [if_neg hres, if_neg hnew]
  · simp only [buildCodexArgs]
    rw [if_neg hres]
    exact ⟨_, rfl⟩
  · intro hm hw ht
    have hm' : ¬(gs "resume" = trimChars cfg.Model) := fun h => hm h.symm
    have hw' : ¬(gs "resume" = cfg.WorkDir) := fun h => hw h.symm
    have ht' : ¬(gs "resume" = targetArg) := fun h => ht h.symm
    have hre : ∀ re : List Char,
        ¬(gs "resume" = gs "model_reasoning_effort=" ++ re) := by
      intro re h
      have hlen := congrArg List.length h
      simp only [gs, List.length_append] at hlen
      have h6 : ("resume".data).length = 6 := by decide
      have h23 : ("model_reasoning_effort=".data).length = 23 := by decide
      rw [h6, h23] at hlen
      omega
    have de : ¬(gs "resume" = gs "e") := by decide
    have db : ¬(gs "resume" = gs "--dangerously-bypass-approvals-and-sandbox") :=
      by decide
    have dmf : ¬(gs "resume" = gs "--model") := by decide
    have dcf : ¬(gs "resume" = gs "-c") := by decide
    have dsk : ¬(gs "resume" = gs "--skip-git-repo-check") := by decide
    have dCf : ¬(gs "resume" = gs "-C") := by decide
    have djs : ¬(gs "resume" = gs "--json") := by decide
    simp only [buildCodexArgs]
    rw [if_neg hres]
    intro hmem
    simp [mem_ite_extend, mem_ite_extend', List.mem_append, de, db, dmf, dcf,
      dsk, dCf, djs, hm', hw', ht',
      hre (trimChars cfg.ReasoningEffort)] at hmem
    revert hmem
    split <;> simp [de, db]

/-- Concrete resume-mode config with a whitespace-only session ID. -/
def c10Cfg : Config :=
  { Mode := gs "resume", SessionID := gs "   ", WorkDir := gs "/w",
    Model := gs "m1" }

theorem buildCodexArgs_emptySessionFallback_witness :
    c10Cfg.Mode = gs "resume" ∧ trimChars c10Cfg.SessionID = [] ∧
      (buildCodexArgs (fun _ => none) c10Cfg (gs "do it") =
        buildCodexArgs (fun _ => none) { c10Cfg with Mode := gs "new" }
          (gs "do it") ∧
      (∃ pre, buildCodexArgs (fun _ => none) c10Cfg (gs "do it") =
        pre ++ [gs "-C", c10Cfg.WorkDir, gs "--json", gs "do it"]) ∧
      (trimChars c10Cfg.Model ≠ gs "resume" → c10Cfg.WorkDir ≠ gs "resume" →
        gs "do it" ≠ gs "resume" →
        gs "resume" ∉ buildCodexArgs (fun _ => none) c10Cfg (gs "do it"))) :=
  ⟨by decide, by decide,
    buildCodexArgs_emptySessionFallback (fun _ => none) c10Cfg (gs "do it")
      (by decide) (by decide)⟩

/-! ## Wrapper shutdown and log-file disposal (runWithLoggerAndCleanup, cli.go)

Source: the deferred shutdown block of `runWithLoggerAndCleanup`
(cli.go lines 178-200): flush, close, print recent errors plus the log
path on non-zero exit, then `_ = logger.RemoveLogFile()` — executed
unconditionally, on every exit path with a live logger. -/

/-- Modelled from the spec: `Logger.ExtractRecentErrors` lives in the
logger package whose implementation file is not in the corpus.  The
spec (§4.6) says the logger retains the most recent WARN/ERROR lines
and surfaces at most `maxEntries` of them; the tests pin "truncate to
max" as keeping the LAST `maxEntries` entries and non-positive
`maxEntries` returning nothing. -/
def extractRecentErrors (cache : List (List Char)) (maxEntries : Int) :
    List (List Char) :=
  if maxEntries ≤ 0 then []
  else cache.drop (cache.length - maxEntries.toNat)

/-- Observable outcome of the deferred shutdown block: the lines
printed to stderr and whether `RemoveLogFile` was invoked. -/
structure ShutdownResult where
  stderrLines : List (List Char)
  logRemoved : Bool
  deriving Repr, DecidableEq

/-- The deferred shutdown block of `runWithLoggerAndCleanup` for a
successfully initialized logger: `cache` is the logger's recent
WARN/ERROR cache and `path` its log-file path.  `Flush`/`Close` have no
caller-visible effect beyond durability and are omitted. -/
def loggerShutdown (exitCode : Int) (cache : List (List Char))
    (path : List Char) : ShutdownResult :=
  let entries := extractRecentErrors cache 10
  let stderrLines :=
    if exitCode ≠ 0 ∧ entries ≠ [] then
      [gs "=== Recent Errors ==="] ++ entries ++
        [gs "Log file: " ++ path ++ gs " (deleted)"]
    else []
  { stderrLines := stderrLines, logRemoved := true }

/-- Claim C8 counterexample: after a run that exits with the non-zero
code 2 and a cached error line, the shutdown block still invokes
`RemoveLogFile`, so the log file does NOT remain on disk — refuting the
claim that it is removed only on a clean exit. -/
theorem loggerShutdown_removes_on_failure :
    (loggerShutdown 2 [gs "boom"] (gs "/tmp/codeagent-wrapper-7.log")).logRemoved
      = true := by decide

/-- Claim C8 as amended: the per-invocation log file is removed
unconditionally at shutdown, whatever the exit code; on a non-zero exit
with cached recent-error lines, those lines (at most 10) are printed to
stderr followed by the log-file path marked "(deleted)". -/
theorem loggerShutdown_spec (exitCode : Int) (cache : List (List Char))
    (path : List Char) :
    (loggerShutdown exitCode cache path).logRemoved = true ∧
    (exitCode ≠ 0 → extractRecentErrors cache 10 ≠ [] →
      (loggerShutdown exitCode cache path).stderrLines =
        [gs "=== Recent Errors ==="] ++ extractRecentErrors cache 10 ++
          [gs "Log file: " ++ path ++ gs " (deleted)"]) := by
  refine ⟨rfl, fun hc he => ?_⟩
  simp [loggerShutdown, hc, he]

theorem loggerShutdown_spec_witness :
    (2 : Int) ≠ 0 ∧
      extractRecentErrors [gs "boom"] 10 ≠ [] ∧
      ((loggerShutdown 2 [gs "boom"] (gs "/w.log")).logRemoved = true ∧
        ((2 : Int) ≠ 0 → extractRecentErrors [gs "boom"] 10 ≠ [] →
          (loggerShutdown 2 [gs "boom"] (gs "/w.log")).stderrLines =
            [gs "=== Recent Errors ==="] ++ extractRecentErrors [gs "boom"] 10 ++
              [gs "Log file: " ++ gs "/w.log" ++ gs " (deleted)"])) :=
  ⟨by decide, by decide, loggerShutdown_spec 2 [gs "boom"] (gs "/w.log")⟩

/-! ## Task-block parser (executor.ParseParallelConfig)

Source: `ParseParallelConfig` in the executor package.  The agent
preset lookup `config.ResolveAgentConfig` reads a user-level JSON file
and is passed in as a function (`resolveAgent`), mirroring how the
source treats it as an external collaborator. -/

/-- `executor.TaskSpec` (log_helpers.go).  The `Context` field is a
runtime handle and is omitted. -/
structure TaskSpec where
  id : List Char := []
  task : List Char := []
  workDir : List Char := []
  dependencies : List (List Char) := []
  sessionID : List Char := []
  backend : List Char := []
  model : List Char := []
  reasoningEffort : List Char := []
  agent : List Char := []
  promptFile : List Char := []
  skipPermissions : Bool := false
  mode : List Char := []
  useStdin : Bool := false
  deriving Repr, DecidableEq

/-- `executor.ParallelConfig` (log_helpers.go). -/
structure ParallelConfig where
  tasks : List TaskSpec := []
  globalBackend : List Char := []
  deriving Repr, DecidableEq

/-- The character set allowed by `config.ValidateAgentName`. -/
def isAgentChar (c : Char) : Bool :=
  ('a' ≤ c ∧ c ≤ 'z') ∨ ('A' ≤ c ∧ c ≤ 'Z') ∨ ('0' ≤ c ∧ c ≤ '9') ∨
    c = '-' ∨ c = '_'

/-- `config.ValidateAgentName` (config.go); the source embeds the
offending name and character in the error with the `%q` verb, written
here without the quoting. -/
def validateAgentName (name : List Char) : Except (List Char) Unit :=
  if trimChars name = [] then .error (gs "agent name is empty")
  else if name.all isAgentChar then .ok ()
  else .error (gs "agent name contains invalid character")

/-- An agent preset as returned by `config.ResolveAgentConfig`:
backend, model, prompt file, reasoning effort (the base-URL, API-key
and yolo components are unused by the block parser). -/
structure AgentPreset where
  backend : List Char := []
  model : List Char := []
  promptFile : List Char := []
  reasoning : List Char := []

/-- One `key: value` metadata line of `ParseParallelConfig`'s switch.
The second component of the state is the `agentSpecified` flag. -/
def applyMetaLine (taskIndex : Nat) (st : TaskSpec × Bool)
    (line0 : List Char) : Except (List Char) (TaskSpec × Bool) :=
  let line := trimChars line0
  if line = [] then .ok st
  else
    match splitN2 (gs ":") line with
    | [k0, v0] =>
      let key := trimChars k0
      let value := trimChars v0
      let task := st.1
      let agentSpecified := st.2
      if key = gs "id" then .ok ({ task with id := value }, agentSpecified)
      else if key = gs "workdir" then
        if value = gs "-" then
          .error (gs "task block #" ++ natChars taskIndex ++
            gs " has invalid workdir: - is not a valid directory path")
        else .ok ({ task with workDir := value }, agentSpecified)
      else if key = gs "session_id" then
        .ok ({ task with sessionID := value, mode := gs "resume" },
          agentSpecified)
      else if key = gs "backend" then
        .ok ({ task with backend := value }, agentSpecified)
      else if key = gs "model" then
        .ok ({ task with model := value }, agentSpecified)
      else if key = gs "reasoning_effort" then
        .ok ({ task with reasoningEffort := value }, agentSpecified)
      else if key = gs "agent" then
        .ok ({ task with agent := value }, true)
      else if key = gs "skip_permissions" ∨ key = gs "skip-permissions" then
        if value = [] then .ok ({ task with skipPermissions := true },
          agentSpecified)
        else .ok ({ task with skipPermissions := parseBoolFlag value false },
          agentSpecified)
      else if key = gs "dependencies" then
        .ok ({ task with dependencies := task.dependencies ++
          (((splitSep (gs ",") value).map trimChars).filter
            (fun d => d ≠ [])) }, agentSpecified)
      else .ok st
    | _ => .ok st

/-- The per-block body of `ParseParallelConfig`: metadata fold, mode
default, agent-preset merge and the validation checks, producing the
finished task. -/
def parseTaskBlock (resolveAgent : List Char → AgentPreset)
    (taskIndex : Nat) (seen : List (List Char)) (blockBody : List Char) :
    Except (List Char) TaskSpec := do
  let parts := splitN2 (gs "---CONTENT---") blockBody
  match parts with
  | [meta0, content0] =>
    let meta := trimChars meta0
    let content := trimChars content0
    let init : TaskSpec × Bool := ({ workDir := gs "." }, false)
    let st ← (splitSep (gs "\n") meta).foldlM (applyMetaLine taskIndex) init
    let task := st.1
    let agentSpecified := st.2
    let task := if task.mode = [] then { task with mode := gs "new" } else task
    let task ←
      if agentSpecified then
        if trimChars task.agent = [] then
          .error (gs "task block #" ++ natChars taskIndex ++
            gs " has empty agent field")
        else
          match validateAgentName task.agent with
          | .error e =>
            .error (gs "task block #" ++ natChars taskIndex ++
              gs " invalid agent name: " ++ e)
          | .ok _ =>
            let preset := resolveAgent task.agent
            let task := if task.backend = [] then
              { task with backend := preset.backend } else task
            let task := if task.model = [] then
              { task with model := preset.model } else task
            let task := if task.reasoningEffort = [] then
              { task with reasoningEffort := preset.reasoning } else task
            pure { task with promptFile := preset.promptFile }
      else pure task
    if task.id = [] then
      .error (gs "task block #" ++ natChars taskIndex ++
        gs " missing id field")
    else if content = [] then
      .error (gs "task block #" ++ natChars taskIndex ++
        gs " missing content")
    else if task.mode = gs "resume" ∧ trimChars task.sessionID = [] then
      .error (gs "task block #" ++ natChars taskIndex ++
        gs " has empty session_id")
    else if seen.contains task.id then
      .error (gs "task block #" ++ natChars taskIndex ++
        gs " has duplicate id: " ++ task.id)
    else
      pure { task with task := content }
  | _ =>
    .error (gs "task block #" ++ natChars taskIndex ++
      gs " missing ---CONTENT--- separator")

/-- The block loop of `ParseParallelConfig`: blank blocks are skipped
without consuming a block number. -/
def parseTaskBlocks (resolveAgent : List Char → AgentPreset) :
    List (List Char) → Nat → List (List Char) → List TaskSpec →
      Except (List Char) (List TaskSpec)
  | [], _, _, acc => .ok acc
  | block :: rest, taskIndex, seen, acc =>
    let b := trimChars block
    if b = [] then parseTaskBlocks resolveAgent rest taskIndex seen acc
    else
      match parseTaskBlock resolveAgent (taskIndex + 1) seen b with
      | .error e => .error e
      | .ok task =>
        parseTaskBlocks resolveAgent rest (taskIndex + 1)
          (seen ++ [task.id]) (acc ++ [task])

/-- `executor.ParseParallelConfig`. -/
def parseParallelConfig (resolveAgent : List Char → AgentPreset)
    (data : List Char) : Except (List Char) ParallelConfig :=
  let trimmed := trimChars data
  if trimmed = [] then .error (gs "parallel config is empty")
  else
    match parseTaskBlocks resolveAgent (splitSep (gs "---TASK---") trimmed)
        0 [] [] with
    | .error e => .error e
    | .ok tasks =>
      if tasks = [] then .error (gs "no tasks found")
      else .ok { tasks := tasks }

/-- A task block whose metadata carries a `prompt_file:` line and no
agent key. -/
def c9Input : List Char :=
  gs "---TASK---\nid: a\nprompt_file: /x/p.md\n---CONTENT---\nhello"

/-- An agent-preset oracle for the tests below: agent "dev" carries a
prompt file. -/
def c9Presets : List Char → AgentPreset := fun name =>
  if name = gs "dev" then
    { backend := gs "codex", model := gs "gpt-5",
      promptFile := gs "~/.codeagent/agents/dev.md", reasoning := gs "high" }
  else { backend := gs "opencode", model := gs "opencode/grok-code" }

/-- The task that the source parses out of `c9Input`: note the empty
prompt-file field. -/
def c9Task : TaskSpec :=
  { id := gs "a", task := gs "hello", workDir := gs ".",
    mode := gs "new" }

def c9Expected : ParallelConfig := { tasks := [c9Task] }

/-- The task parsed out of `c9AgentInput`: the prompt file comes from
the preset. -/
def c9AgentTask : TaskSpec :=
  { id := gs "b", task := gs "work", workDir := gs ".",
    mode := gs "new", agent := gs "dev", backend := gs "codex",
    model := gs "gpt-5", reasoningEffort := gs "high",
    promptFile := gs "~/.codeagent/agents/dev.md" }

def c9AgentExpected : ParallelConfig := { tasks := [c9AgentTask] }

/-- Claim C9 counterexample: a valid task block whose metadata contains
`prompt_file: /x/p.md` parses successfully, yet the parsed task's
prompt-file field is empty — the `prompt_file` key is not among the
cases of the parser's switch and falls through to the unknown-key
branch. -/
theorem parseParallelConfig_ignores_promptFile :
    ∃ cfg, parseParallelConfig c9Presets c9Input = .ok cfg ∧
      cfg.tasks.map (fun t => t.id) = [gs "a"] ∧
      cfg.tasks.map (fun t => t.promptFile) = [[]] ∧
      cfg.tasks.map (fun t => t.promptFile) ≠ [gs "/x/p.md"] := by
  refine ⟨c9Expected, rfl, by decide, by decide, by decide⟩

/-- A block that obtains its prompt file through an agent preset. -/
def c9AgentInput : List Char :=
  gs "---TASK---\nid: b\nagent: dev\n---CONTENT---\nwork"

/-- Claim C9 as amended: the task-block parser does not recognize a
`prompt_file` metadata key (the line is ignored as an unknown key and
the parsed task's prompt-file stays empty); a task's prompt-file path
is populated only from the preset of an `agent:` key. -/
theorem parseParallelConfig_promptFile_amended :
    (∃ cfg, parseParallelConfig c9Presets c9Input = .ok cfg ∧
      cfg.tasks.map (fun t => t.promptFile) = [[]]) ∧
    (∃ cfg, parseParallelConfig c9Presets c9AgentInput = .ok cfg ∧
      cfg.tasks.map (fun t => t.promptFile) =
        [gs "~/.codeagent/agents/dev.md"]) := by
  constructor
  · exact ⟨c9Expected, rfl, by decide⟩
  · exact ⟨c9AgentExpected, rfl, by decide⟩

/-! ## Streaming-JSON normalizer (parser.ParseJSONStreamInternal, parser.go)

The external JSON library (`goccy/go-json`) is modelled as an oracle:
each physical line carries, besides its raw bytes, the `UnifiedEvent`
that `json.Unmarshal` yields for it (`none` for a malformed line), and
the nested `item` / `part` raw messages carry their own second-stage
decode results.  The loop body after each unmarshal is translated
statement by statement.  `infoFn` calls and the `onMessage` callback
are pure observability and are not tracked; `onComplete` calls are
counted in `completions`.  Error strings produced from the library's
`err.Error()` are modelled by fixed prefixes. -/

def jsonLineMaxBytes : Nat := 10 * 1024 * 1024

def jsonLinePreviewBytes : Nat := 256

/-- `parser.TruncateBytes` for a non-negative limit (the source's
negative-limit branch is unreachable from the call sites in scope). -/
def truncateBytes (b : List Char) (maxLen : Nat) : List Char :=
  if b.length ≤ maxLen then b else b.take maxLen ++ gs "..."

/-- `parser.OpencodePart` (event.go). -/
structure OpencodePart where
  typ : List Char := []
  text : List Char := []
  reason : List Char := []
  sessionID : List Char := []
  deriving Repr, DecidableEq

/-- The `part` raw message of an event: absent, present but failing the
second-stage unmarshal, or decoded. -/
inductive PartField
  | absent
  | malformed
  | ok (p : OpencodePart)
  deriving Repr, DecidableEq

/-- The `text` field of a Codex item (`interface{}` in the source):
a JSON string, an array whose string elements are kept (`none` marks a
non-string element), or any other shape. -/
inductive TextVal
  | str (s : List Char)
  | arr (elems : List (Option (List Char)))
  | other
  deriving Repr, DecidableEq

/-- `parser.NormalizeText` (parser.go). -/
def normalizeText : TextVal → List Char
  | .str s => s
  | .arr es => (es.filterMap id).flatten
  | .other => []

/-- `parser.ItemContent` (event.go). -/
structure ItemContentV where
  typ : List Char := []
  text : TextVal := .other
  deriving Repr, DecidableEq

/-- The `item` raw message of a Codex event with its two second-stage
decode results: the header `{type}` probe and the full `ItemContent`
decode (`none` = the respective unmarshal returned an error). -/
structure ItemRaw where
  headerTyp : Option (List Char) := none
  content : Option ItemContentV := none
  deriving Repr, DecidableEq

/-- `parser.UnifiedEvent` (event.go), with raw sub-messages replaced by
their decode results. -/
structure UnifiedEvent where
  typ : List Char := []
  threadID : List Char := []
  item : Option ItemRaw := none
  subtype : List Char := []
  sessionID : List Char := []
  result : List Char := []
  role : List Char := []
  content : List Char := []
  delta : Option Bool := none
  status : List Char := []
  opencodeSessionID : List Char := []
  part : PartField := .absent
  deriving Repr, DecidableEq

/-- One physical line of the child's stdout: its bytes plus the decode
oracle for `json.Unmarshal` on the trimmed line (`none` = malformed).
The decode result is never consulted for empty or oversized lines. -/
structure StreamLine where
  text : List Char
  decoded : Option UnifiedEvent := none
  deriving Repr, DecidableEq

/-- The mutable state of the `ParseJSONStreamInternal` loop. -/
structure ParseState where
  threadID : List Char := []
  codexMessage : List Char := []
  claudeMessage : List Char := []
  geminiBuffer : List Char := []
  opencodeMessage : List Char := []
  warnings : List (List Char) := []
  completions : Nat := 0
  totalEvents : Nat := 0
  deriving Repr, DecidableEq

/-- `readLineWithLimit` observed per line: a line longer than
`maxBytes` comes back truncated to the first `previewBytes` bytes with
the `tooLong` flag set; otherwise it comes back whole. -/
def readLineResult (line : List Char) : List Char × Bool :=
  if line.length > jsonLineMaxBytes then
    (line.take jsonLinePreviewBytes, true)
  else (line, false)

/-- The item type probed from an event's `item` header (empty when the
item is absent or its header unmarshal failed). -/
def itemHeaderTyp (ev : UnifiedEvent) : List Char :=
  match ev.item with
  | some ir => ir.headerTyp.getD []
  | none => []

def isCodexEvent (ev : UnifiedEvent) : Bool :=
  decide (ev.threadID ≠ []) || decide (itemHeaderTyp ev ≠ []) ||
    decide (ev.typ = gs "turn.started") ||
    decide (ev.typ = gs "turn.completed")

def isClaudeEvent (ev : UnifiedEvent) : Bool :=
  decide (ev.subtype ≠ []) || decide (ev.result ≠ []) ||
    (decide (ev.typ = gs "result") && decide (ev.sessionID ≠ []) &&
      decide (ev.status = []))

def isGeminiEvent (ev : UnifiedEvent) : Bool :=
  (decide (ev.typ = gs "init") && decide (ev.sessionID ≠ [])) ||
    decide (ev.role ≠ []) || decide (ev.delta ≠ none) ||
    decide (ev.status ≠ [])

def isOpencodeEvent (ev : UnifiedEvent) : Bool :=
  decide (ev.opencodeSessionID ≠ []) && decide (ev.part ≠ PartField.absent)

/-- The opencode branch of the event loop. -/
def handleOpencode (st : ParseState) (ev : UnifiedEvent) : ParseState :=
  let st := if st.threadID = [] then
    { st with threadID := ev.opencodeSessionID } else st
  match ev.part with
  | .absent => st
  | .malformed =>
    { st with warnings := st.warnings ++ [gs "Failed to parse opencode part"] }
  | .ok part =>
    let st := if part.sessionID ≠ [] ∧ st.threadID = [] then
      { st with threadID := part.sessionID } else st
    let st := if ev.typ = gs "text" ∧ part.text ≠ [] then
      { st with opencodeMessage := st.opencodeMessage ++ part.text } else st
    if part.typ = gs "step-finish" ∧ part.reason = gs "stop" then
      { st with completions := st.completions + 1 }
    else st

/-- The Codex branch of the event loop. -/
def handleCodex (st : ParseState) (ev : UnifiedEvent) : ParseState :=
  if ev.typ = gs "thread.started" then { st with threadID := ev.threadID }
  else if ev.typ = gs "thread.completed" then
    let st := if ev.threadID ≠ [] ∧ st.threadID = [] then
      { st with threadID := ev.threadID } else st
    { st with completions := st.completions + 1 }
  else if ev.typ = gs "turn.completed" then
    { st with completions := st.completions + 1 }
  else if ev.typ = gs "item.completed" then
    if itemHeaderTyp ev = gs "agent_message" ∧ ev.item ≠ none then
      match ev.item with
      | some ir =>
        match ir.content with
        | some ic =>
          let normalized := normalizeText ic.text
          if normalized ≠ [] then { st with codexMessage := normalized }
          else st
        | none =>
          { st with warnings :=
              st.warnings ++ [gs "Failed to parse item content"] }
      | none => st
    else st
  else st

/-- The Claude branch of the event loop. -/
def handleClaude (st : ParseState) (ev : UnifiedEvent) : ParseState :=
  let st := if ev.sessionID ≠ [] ∧ st.threadID = [] then
    { st with threadID := ev.sessionID } else st
  let st := if ev.result ≠ [] then
    { st with claudeMessage := ev.result } else st
  if ev.typ = gs "result" then { st with completions := st.completions + 1 }
  else st

/-- The Gemini branch of the event loop. -/
def handleGemini (st : ParseState) (ev : UnifiedEvent) : ParseState :=
  let st := if ev.sessionID ≠ [] ∧ st.threadID = [] then
    { st with threadID := ev.sessionID } else st
  let st := if ev.content ≠ [] then
    { st with geminiBuffer := st.geminiBuffer ++ ev.content } else st
  if ev.status ≠ [] then
    if ev.typ = gs "result" ∧ (ev.status = gs "success" ∨
        ev.status = gs "error" ∨ ev.status = gs "complete" ∨
        ev.status = gs "failed") then
      { st with completions := st.completions + 1 }
    else st
  else st

/-- Dialect dispatch in source order: opencode, Codex, Claude, Gemini,
otherwise the event is ignored. -/
def processEvent (st : ParseState) (ev : UnifiedEvent) : ParseState :=
  if isOpencodeEvent ev then handleOpencode st ev
  else if isCodexEvent ev then handleCodex st ev
  else if isClaudeEvent ev then handleClaude st ev
  else if isGeminiEvent ev then handleGemini st ev
  else st

def overlongWarning (line : List Char) : List Char :=
  gs "Skipped overlong JSON line (> " ++ natChars jsonLineMaxBytes ++
    gs " bytes): " ++ truncateBytes line 100

def malformedWarning (line : List Char) : List Char :=
  gs "Failed to parse event: " ++ truncateBytes line 100

/-- One iteration of the read loop of `ParseJSONStreamInternal`: read
with limit, trim, skip empty lines, warn-and-skip oversized lines,
warn-and-skip malformed lines, otherwise process the decoded event. -/
def processLine (st : ParseState) (sl : StreamLine) : ParseState :=
  let lr := readLineResult sl.text
  let line := trimChars lr.1
  if line = [] then st
  else
    let st := { st with totalEvents := st.totalEvents + 1 }
    if lr.2 then { st with warnings := st.warnings ++ [overlongWarning line] }
    else
      match sl.decoded with
      | none =>
        { st with warnings := st.warnings ++ [malformedWarning line] }
      | some ev => processEvent st ev

/-- The accumulated loop state at end of stream. -/
def parseState (lines : List StreamLine) : ParseState :=
  lines.foldl processLine {}

/-- The values `ParseJSONStreamInternal` returns (message and thread
ID), together with the warnings and completion signals it emitted. -/
structure ParseOutput where
  message : List Char
  threadID : List Char
  warnings : List (List Char)
  completions : Nat
  deriving Repr, DecidableEq

/-- `parser.ParseJSONStreamInternal`: run the loop, then select the
message by the end-of-stream priority switch of the source. -/
def parseJSONStream (lines : List StreamLine) : ParseOutput :=
  let st := parseState lines
  let message :=
    if st.opencodeMessage ≠ [] then st.opencodeMessage
    else if st.geminiBuffer ≠ [] then st.geminiBuffer
    else if st.claudeMessage ≠ [] then st.claudeMessage
    else st.codexMessage
  { message := message, threadID := st.threadID,
    warnings := st.warnings, completions := st.completions }

/-- Claim C5: at end-of-stream, the returned message obeys the fixed
priority over the four per-dialect buffers accumulated by the loop: a
non-empty opencode buffer wins; otherwise a non-empty gemini buffer;
otherwise the last non-empty claude result; otherwise the last codex
agent message. -/
theorem endOfStream_priority (lines : List StreamLine) :
    ((parseState lines).opencodeMessage ≠ [] →
      (parseJSONStream lines).message = (parseState lines).opencodeMessage) ∧
    ((parseState lines).opencodeMessage = [] →
      (parseState lines).geminiBuffer ≠ [] →
      (parseJSONStream lines).message = (parseState lines).geminiBuffer) ∧
    ((parseState lines).opencodeMessage = [] →
      (parseState lines).geminiBuffer = [] →
      (parseState lines).claudeMessage ≠ [] →
      (parseJSONStream lines).message = (parseState lines).claudeMessage) ∧
    ((parseState lines).opencodeMessage = [] →
      (parseState lines).geminiBuffer = [] →
      (parseState lines).claudeMessage = [] →
      (parseJSONStream lines).message = (parseState lines).codexMessage) := by
  refine ⟨fun h1 => ?_, fun h1 h2 => ?_, fun h1 h2 h3 => ?_,
    fun h1 h2 h3 => ?_⟩
  · simp [parseJSONStream, h1]
  · simp [parseJSONStream, h1, h2]
  · simp [parseJSONStream, h1, h2, h3]
  · simp [parseJSONStream, h1, h2, h3]

/-- The opencode scenario of the spec (§8, scenario 6): a text event
then a step-finish/stop event. -/
def c5Ev1 : UnifiedEvent :=
  { typ := gs "text", opencodeSessionID := gs "Z",
    part := .ok { typ := gs "text", text := gs "hi" } }

def c5Ev2 : UnifiedEvent :=
  { typ := gs "step-finish", opencodeSessionID := gs "Z",
    part := .ok { typ := gs "step-finish", reason := gs "stop" } }

def c5Lines : List StreamLine :=
  [{ text := gs "x1", decoded := some c5Ev1 },
   { text := gs "x2", decoded := some c5Ev2 }]

theorem endOfStream_priority_witness :
    (parseState c5Lines).opencodeMessage = gs "hi" ∧
    (parseJSONStream c5Lines).message = gs "hi" ∧
    (parseJSONStream c5Lines).threadID = gs "Z" ∧
    (parseJSONStream c5Lines).completions = 1 ∧
    (((parseState c5Lines).opencodeMessage ≠ [] →
      (parseJSONStream c5Lines).message =
        (parseState c5Lines).opencodeMessage) ∧
    ((parseState c5Lines).opencodeMessage = [] →
      (parseState c5Lines).geminiBuffer ≠ [] →
      (parseJSONStream c5Lines).message =
        (parseState c5Lines).geminiBuffer) ∧
    ((parseState c5Lines).opencodeMessage = [] →
      (parseState c5Lines).geminiBuffer = [] →
      (parseState c5Lines).claudeMessage ≠ [] →
      (parseJSONStream c5Lines).message =
        (parseState c5Lines).claudeMessage) ∧
    ((parseState c5Lines).opencodeMessage = [] →
      (parseState c5Lines).geminiBuffer = [] →
      (parseState c5Lines).claudeMessage = [] →
      (parseJSONStream c5Lines).message =
        (parseState c5Lines).codexMessage)) :=
  ⟨by decide, by decide, by decide, by decide, endOfStream_priority c5Lines⟩

/-! ## Oversized-line handling (claim C7) -/

theorem dropWhile_replicate_of_neg (p : Char → Bool) (n : Nat) (c : Char)
    (h : p c = false) :
    List.dropWhile p (List.replicate n c) = List.replicate n c := by
  cases n with
  | zero => rfl
  | succ m => simp [List.replicate_succ, List.dropWhile_cons, h]

theorem trimChars_replicate (n : Nat) (c : Char) (h : isSpaceChar c = false) :
    trimChars (List.replicate n c) = List.replicate n c := by
  unfold trimChars
  rw [dropWhile_replicate_of_neg _ _ _ h, List.reverse_replicate,
    dropWhile_replicate_of_neg _ _ _ h, List.reverse_replicate]

/-- The warning the source emits for any oversized line consisting of
`a` bytes: the 256-byte preview returned by `readLineWithLimit`,
further truncated to 100 bytes by `TruncateBytes`. -/
def c7Warning : List Char := overlongWarning (List.replicate 256 'a')

theorem c7OverlongStep (n : Nat) (st : ParseState)
    (d : Option UnifiedEvent) (h : jsonLineMaxBytes < n) :
    processLine st { text := List.replicate n 'a', decoded := d } =
      { st with totalEvents := st.totalEvents + 1,
                warnings := st.warnings ++ [c7Warning] } := by
  have hn : 256 ≤ n := by
    have : (10 * 1024 * 1024 : Nat) < n := h
    omega
  have h256 : (List.replicate n 'a').take jsonLinePreviewBytes =
      List.replicate 256 'a' := by
    rw [List.take_replicate]
    congr 1
    show min 256 n = 256
    omega
  have hlen : (List.replicate n 'a').length > jsonLineMaxBytes := by
    rw [List.length_replicate]; exact h
  simp only [processLine, readLineResult, if_pos hlen, h256,
    trimChars_replicate 256 'a' (by decide)]
  rw [if_neg (by simp : ¬(List.replicate 256 'a' = ([] : List Char)))]
  rfl

/-- A well-formed Claude completion event (spec §8, scenario 5). -/
def c7ClaudeEvent : UnifiedEvent :=
  { typ := gs "result", subtype := gs "ok", sessionID := gs "S",
    result := gs "done" }

def c7ClaudeLine : StreamLine :=
  { text := gs "x3", decoded := some c7ClaudeEvent }

/-- The spec's oversized-line scenario: one line of
`jsonLineMaxBytes + 1` bytes, then a normal completion event. -/
def c7Stream : List StreamLine :=
  [{ text := List.replicate (jsonLineMaxBytes + 1) 'a', decoded := none },
   c7ClaudeLine]

/-- The loop state after an oversized line and the Claude completion
event, in closed form. -/
theorem c7StateAfter (d : Option UnifiedEvent) (n : Nat)
    (h : jsonLineMaxBytes < n) :
    parseState [{ text := List.replicate n 'a', decoded := d }, c7ClaudeLine]
      = processLine ({ totalEvents := 1, warnings := [c7Warning] } :
          ParseState) c7ClaudeLine := by
  rw [parseState, List.foldl_cons, c7OverlongStep n ({} : ParseState) d h]
  rw [show ({ ({} : ParseState) with totalEvents := ({} : ParseState).totalEvents + 1, warnings := ({} : ParseState).warnings ++ [c7Warning] } : ParseState) = ({ totalEvents := 1, warnings := [c7Warning] } : ParseState) from rfl]
  rw [List.foldl_cons, List.foldl_nil]

/-- Claim C7 counterexample: for the oversized line of the spec's own
scenario, exactly one warning is emitted, but that warning does not
include the line's 256-byte preview — `TruncateBytes` cuts the preview
to 100 bytes before it reaches the log, and the whole warning is
shorter than 256 bytes. -/
theorem overlongWarning_preview_counterexample :
    (parseJSONStream c7Stream).warnings = [c7Warning] ∧
    (List.replicate (jsonLineMaxBytes + 1) 'a').take jsonLinePreviewBytes =
      List.replicate 256 'a' ∧
    ¬ containsSeg (List.replicate 256 'a') c7Warning := by
  refine ⟨?_, ?_, ?_⟩
  · show (parseJSONStream c7Stream).warnings = [c7Warning]
    have hst := c7StateAfter none (jsonLineMaxBytes + 1) (Nat.lt_succ_self _)
    simp only [c7Stream] at hst ⊢
    simp only [parseJSONStream, hst]
    decide
  · rw [List.take_replicate]
    have hmin : min jsonLinePreviewBytes (jsonLineMaxBytes + 1) = 256 := by
      decide
    rw [hmin]
  · intro hseg
    have hle := containsSeg_length_le hseg
    have h1 : (List.replicate 256 'a').length = 256 := by
      rw [List.length_replicate]
    have h2 : c7Warning.length < 256 := by decide
    omega

/-- `processLine` on the normal completion line of the oversized-line
scenario, from any loop state that has not yet seen a thread ID. -/
theorem c7ClaudeStep (st : ParseState) (h : st.threadID = []) :
    processLine st c7ClaudeLine =
      { st with threadID := gs "S", claudeMessage := gs "done",
                completions := st.completions + 1,
                totalEvents := st.totalEvents + 1 } := by
  obtain ⟨t, cx, cl, gb, oc, w, cp, te⟩ := st
  have ht : t = [] := h
  subst ht
  rfl

/-- `processLine` on an arbitrary oversized line, in closed form: the
line is always skipped, and the warning is appended exactly when the
retained 256-byte preview is not whitespace-only — a preview that trims
to nothing falls into the empty-line `continue` before the `tooLong`
check, so the line is dropped silently. -/
theorem c7OverlongStepGen (line : List Char) (st : ParseState)
    (d : Option UnifiedEvent) (h : jsonLineMaxBytes < line.length) :
    processLine st { text := line, decoded := d } =
      if trimChars (line.take jsonLinePreviewBytes) = [] then st
      else { st with totalEvents := st.totalEvents + 1,
                     warnings := st.warnings ++
                       [overlongWarning
                         (trimChars (line.take jsonLinePreviewBytes))] } := by
  have hr : readLineResult line = (line.take jsonLinePreviewBytes, true) := by
    unfold readLineResult
    rw [if_pos h]
  by_cases ht : trimChars (line.take jsonLinePreviewBytes) = [] <;>
    simp [processLine, hr, ht]

/-- `TruncateBytes` keeps at most `maxLen` bytes plus an ellipsis. -/
theorem truncateBytes_length_le (b : List Char) (n : Nat) :
    (truncateBytes b n).length ≤ n + 3 := by
  unfold truncateBytes
  split
  · omega
  · rw [List.length_append, List.length_take,
      (by decide : (gs "...").length = 3)]
    omega

/-- The overlong-line warning is always shorter than the 256-byte
preview budget, whatever the previewed bytes. -/
theorem overlongWarning_length_lt (pre : List Char) :
    (overlongWarning pre).length < jsonLinePreviewBytes := by
  have ht := truncateBytes_length_le pre 100
  have h4 : jsonLinePreviewBytes = 256 := rfl
  simp only [overlongWarning, List.length_append, h4]
  rw [(by decide : (gs "Skipped overlong JSON line (> ").length = 30),
    (by decide : (natChars jsonLineMaxBytes).length = 8),
    (by decide : (gs " bytes): ").length = 9)]
  omega

/-- Claim C7 as amended: every input line longer than 10 MiB is skipped
(it is never decoded or dispatched) and never aborts parsing.  A
warning is emitted exactly when the retained 256-byte preview is not
whitespace-only; the preview that enters the warning is truncated to at
most 100 bytes plus an ellipsis — never a 256-byte preview — and the
whole warning stays under 256 bytes.  An oversized line whose retained
preview trims to whitespace is dropped silently.  Followed by a normal
completion event, the stream still yields the completion message, with
exactly one warning when the preview is non-blank and none when it is
blank. -/
theorem overlongLine_skipped_amended (line : List Char) (st : ParseState)
    (d : Option UnifiedEvent) (h : jsonLineMaxBytes < line.length) :
    processLine st { text := line, decoded := d } =
      (if trimChars (line.take jsonLinePreviewBytes) = [] then st
       else { st with totalEvents := st.totalEvents + 1,
                      warnings := st.warnings ++
                        [overlongWarning
                          (trimChars (line.take jsonLinePreviewBytes))] }) ∧
    (overlongWarning (trimChars (line.take jsonLinePreviewBytes))).length <
      jsonLinePreviewBytes ∧
    (truncateBytes (trimChars (line.take jsonLinePreviewBytes)) 100).length ≤
      103 ∧
    (parseJSONStream [{ text := line, decoded := d }, c7ClaudeLine]).message =
      gs "done" ∧
    (parseJSONStream
      [{ text := line, decoded := d }, c7ClaudeLine]).completions = 1 ∧
    (parseJSONStream [{ text := line, decoded := d }, c7ClaudeLine]).warnings =
      (if trimChars (line.take jsonLinePreviewBytes) = [] then []
       else [overlongWarning
         (trimChars (line.take jsonLinePreviewBytes))]) := by
  have h0 := c7OverlongStepGen line ({} : ParseState) d h
  refine ⟨c7OverlongStepGen line st d h, overlongWarning_length_lt _,
    truncateBytes_length_le _ 100, ?_⟩
  by_cases ht : trimChars (line.take jsonLinePreviewBytes) = []
  · rw [if_pos ht] at h0
    have hstate : parseState [{ text := line, decoded := d }, c7ClaudeLine] =
        processLine ({} : ParseState) c7ClaudeLine := by
      rw [parseState, List.foldl_cons, h0, List.foldl_cons, List.foldl_nil]
    refine ⟨?_, ?_, ?_⟩ <;>
      simp only [parseJSONStream, hstate, if_pos ht] <;> decide
  · rw [if_neg ht] at h0
    have hstate : parseState [{ text := line, decoded := d }, c7ClaudeLine] =
        processLine ({ ({} : ParseState) with totalEvents := ({} : ParseState).totalEvents + 1, warnings := ({} : ParseState).warnings ++ [overlongWarning (trimChars (line.take jsonLinePreviewBytes))] }) c7ClaudeLine := by
      rw [parseState, List.foldl_cons, h0, List.foldl_cons, List.foldl_nil]
    have hcs := c7ClaudeStep ({ ({} : ParseState) with totalEvents := ({} : ParseState).totalEvents + 1, warnings := ({} : ParseState).warnings ++ [overlongWarning (trimChars (line.take jsonLinePreviewBytes))] }) rfl
    refine ⟨?_, ?_, ?_⟩ <;>
      simp only [parseJSONStream, hstate, hcs, if_neg ht] <;> rfl

/-- The oversized line of the witness below. -/
def c7BigLine : StreamLine :=
  { text := List.replicate (jsonLineMaxBytes + 1) 'a', decoded := none }

theorem overlongLine_skipped_amended_witness :
    jsonLineMaxBytes < (List.replicate (jsonLineMaxBytes + 1) 'a').length ∧
      (processLine {} { text := List.replicate (jsonLineMaxBytes + 1) 'a', decoded := none } = (if trimChars ((List.replicate (jsonLineMaxBytes + 1) 'a').take jsonLinePreviewBytes) = [] then ({} : ParseState) else { ({} : ParseState) with totalEvents := ({} : ParseState).totalEvents + 1, warnings := ({} : ParseState).warnings ++ [overlongWarning (trimChars ((List.replicate (jsonLineMaxBytes + 1) 'a').take jsonLinePreviewBytes))] }) ∧
      (overlongWarning (trimChars ((List.replicate (jsonLineMaxBytes + 1) 'a').take jsonLinePreviewBytes))).length < jsonLinePreviewBytes ∧
      (truncateBytes (trimChars ((List.replicate (jsonLineMaxBytes + 1) 'a').take jsonLinePreviewBytes)) 100).length ≤ 103 ∧
      (parseJSONStream [{ text := List.replicate (jsonLineMaxBytes + 1) 'a', decoded := none }, c7ClaudeLine]).message = gs "done" ∧
      (parseJSONStream [{ text := List.replicate (jsonLineMaxBytes + 1) 'a', decoded := none }, c7ClaudeLine]).completions = 1 ∧
      (parseJSONStream [{ text := List.replicate (jsonLineMaxBytes + 1) 'a', decoded := none }, c7ClaudeLine]).warnings = (if trimChars ((List.replicate (jsonLineMaxBytes + 1) 'a').take jsonLinePreviewBytes) = [] then [] else [overlongWarning (trimChars ((List.replicate (jsonLineMaxBytes + 1) 'a').take jsonLinePreviewBytes))])) :=
  ⟨by rw [List.length_replicate]; exact Nat.lt_succ_self _,
    overlongLine_skipped_amended (List.replicate (jsonLineMaxBytes + 1) 'a') {}
      none (by rw [List.length_replicate]; exact Nat.lt_succ_self _)⟩

/-! ## Log-file reclamation (logger package)

`isProcessRunning` and `getProcessStartTime` are translated from
internal/logger/process_check.go (in the corpus).  The functions
`isUnsafeFile`, `isPIDReused` and `cleanupOldLogs` are exercised by the
logger tests in the corpus but their implementation file is not; they
are modelled from the spec (§4.6), with the behaviours the tests pin
down.  Paths are modelled as component lists so that "inside the temp
directory" is an ancestor-directory relation, not a string-prefix
test; OS facilities appear as the same injectable hooks the tests
stub (`fileStatFn`, `evalSymlinksFn`, `processRunningCheck`,
`processStartTimeFn`, `removeLogFileFn`). -/

/-- A filesystem path as its list of components. -/
abbrev PathC := List (List Char)

/-- The slice of `os.FileInfo` the cleanup logic consults. -/
structure FileInfoM where
  isSymlink : Bool := false
  mtimeMs : Int := 0
  deriving Repr, DecidableEq

inductive StatOutcome
  | fail
  | ok (info : FileInfoM)
  deriving Repr, DecidableEq

/-- Outcome of `process.PidExists`: a clean answer, the documented
not-running error, or any other inspection error. -/
inductive PidCheckOutcome
  | ok (running : Bool)
  | errNotRunning
  | errOther
  deriving Repr, DecidableEq

/-- The OS facilities reached through the logger's injectable hooks. -/
structure LogFsEnv where
  stat : PathC → StatOutcome
  evalSymlinks : PathC → Option PathC
  pidExists : Int → PidCheckOutcome
  createTimeMs : Int → Option Int
  removeOk : PathC → Bool
  nowMs : Int

def maxInt32 : Int := 2147483647

/-- `logger.isProcessRunning` (process_check.go): non-positive or
out-of-range PIDs are never running; a clean `PidExists` answer is
trusted; the not-running error reports false; any other inspection
failure conservatively reports true. -/
def isProcessRunning (env : LogFsEnv) (pid : Int) : Bool :=
  if pid ≤ 0 ∨ pid > maxInt32 then false
  else
    match env.pidExists pid with
    | .ok running => running
    | .errNotRunning => false
    | .errOther => true

/-- `logger.getProcessStartTime` (process_check.go): `none` stands for
the zero time the source returns on a range error, a process-handle
error, a `CreateTime` error, or a non-positive timestamp. -/
def getProcessStartTime (env : LogFsEnv) (pid : Int) : Option Int :=
  if pid ≤ 0 ∨ pid > maxInt32 then none
  else env.createTimeMs pid

def sevenDaysMs : Int := 7 * 24 * 60 * 60 * 1000

/-- Modelled from the spec: `logger.isPIDReused` is exercised by
`TestLoggerIsPIDReusedScenarios` but its implementation file is not in
the corpus.  Spec §4.6: a running PID whose start time is later than
the file's mtime has been reused.  The tests additionally pin down:
a stat failure reports not-reused (keep), and when the start time is
unknown, a file older than several days (8 days ⇒ reused, 2 hours ⇒
not) is treated as reused — modelled with a 7-day threshold. -/
def isPIDReused (env : LogFsEnv) (path : PathC) (pid : Int) : Bool :=
  match env.stat path with
  | .fail => false
  | .ok info =>
    match getProcessStartTime env pid with
    | none => decide (env.nowMs - info.mtimeMs > sevenDaysMs)
    | some startMs => decide (info.mtimeMs < startMs)

/-- `root` is an ancestor of (or equal to) `p`, component-wise. -/
def compLeads : PathC → PathC → Bool
  | [], _ => true
  | _ :: _, [] => false
  | a :: as, b :: bs => a = b && compLeads as bs

/-- Modelled from the spec: `logger.isUnsafeFile` is exercised by
`TestLoggerIsUnsafeFileSecurityChecks` but its implementation file is
not in the corpus.  Spec §4.6 step 3: refuse symlinks outright; refuse
files whose fully-resolved path escapes the temp directory; resolution
happens after symlink expansion of both the candidate and the temp
directory, and any resolution failure is refused (fail-closed).  The
reason strings are the ones the tests assert. -/
def isUnsafeFile (env : LogFsEnv) (path tempDir : PathC) :
    Bool × List Char :=
  match env.stat path with
  | .fail => (true, gs "cannot stat file")
  | .ok info =>
    if info.isSymlink then (true, gs "refusing to delete symlink")
    else
      match env.evalSymlinks path, env.evalSymlinks tempDir with
      | some rp, some rt =>
        if compLeads rt rp then (false, [])
        else (true, gs "file is outside tempDir")
      | _, _ => (true, gs "cannot resolve path")

/-- The liveness decision of spec §4.6 step 2: a file is reclaimable
when its PID is not running, or when the PID has been reused. -/
def isReclaimable (env : LogFsEnv) (path : PathC) (pid : Int) : Bool :=
  !(isProcessRunning env pid) || isPIDReused env path pid

/-- `logger.CleanupStats`. -/
structure CleanupStats where
  scanned : Nat := 0
  deleted : Nat := 0
  kept : Nat := 0
  errs : Nat := 0
  deletedFiles : List PathC := []
  keptFiles : List PathC := []
  deriving Repr, DecidableEq

/-- A scan candidate: a file matching the wrapper's log pattern whose
embedded PID parsed successfully (names that fail to parse are skipped
by the scan before this step). -/
structure LogCandidate where
  path : PathC
  pid : Int
  deriving Repr, DecidableEq

/-- Modelled from the spec: the per-candidate body of
`logger.cleanupOldLogs` (§4.6): decide liveness, run the safety checks
before any unlink, aggregate unlink failures without stopping. -/
def cleanupStep (env : LogFsEnv) (tempDir : PathC) (st : CleanupStats)
    (c : LogCandidate) : CleanupStats :=
  let st := { st with scanned := st.scanned + 1 }
  if isReclaimable env c.path c.pid = false then
    { st with kept := st.kept + 1, keptFiles := st.keptFiles ++ [c.path] }
  else if (isUnsafeFile env c.path tempDir).1 then
    { st with kept := st.kept + 1, keptFiles := st.keptFiles ++ [c.path] }
  else if env.removeOk c.path then
    { st with deleted := st.deleted + 1, deletedFiles := st.deletedFiles ++ [c.path] }
  else { st with errs := st.errs + 1 }

/-- Modelled from the spec: `logger.cleanupOldLogs` over the candidate
files of the temp-directory scan. -/
def cleanupOldLogs (env : LogFsEnv) (tempDir : PathC)
    (candidates : List LogCandidate) : CleanupStats :=
  candidates.foldl (cleanupStep env tempDir) {}

theorem cleanup_deletedFiles_safe (env : LogFsEnv) (tempDir : PathC) :
    ∀ (cands : List LogCandidate) (st : CleanupStats),
      (∀ p ∈ st.deletedFiles, (isUnsafeFile env p tempDir).1 = false) →
      ∀ p ∈ (List.foldl (cleanupStep env tempDir) st cands).deletedFiles,
        (isUnsafeFile env p tempDir).1 = false := by
  intro cands
  induction cands with
  | nil => intro st hst p hp; exact hst p hp
  | cons c rest ih =>
    intro st hst p hp
    rw [List.foldl_cons] at hp
    refine ih _ ?_ p hp
    intro q hq
    unfold cleanupStep at hq
    by_cases h1 : isReclaimable env c.path c.pid = false
    · rw [if_pos h1] at hq
      exact hst q hq
    · rw [if_neg h1] at hq
      by_cases h2 : (isUnsafeFile env c.path tempDir).1 = true
      · rw [if_pos h2] at hq
        exact hst q hq
      · rw [if_neg h2] at hq
        by_cases h3 : env.removeOk c.path = true
        · rw [if_pos h3] at hq
          simp only [List.mem_append, List.mem_singleton] at hq
          rcases hq with hq | hq
          · exact hst q hq
          · subst hq
            revert h2
            cases (isUnsafeFile env c.path tempDir).1 <;> simp
        · rw [if_neg h3] at hq
          exact hst q hq

/-- What a passed unsafe-file check guarantees: the file is not a
symlink and its resolved path is inside the resolved temp directory. -/
theorem isUnsafeFile_false_elim (env : LogFsEnv) (tempDir p : PathC)
    (h : (isUnsafeFile env p tempDir).1 = false) :
    (∀ info, env.stat p = .ok info → info.isSymlink = false) ∧
    (∃ rp rt, env.evalSymlinks p = some rp ∧
      env.evalSymlinks tempDir = some rt ∧ compLeads rt rp = true) := by
  cases hstat : env.stat p with
  | fail =>
    exfalso
    simp [isUnsafeFile, hstat] at h
  | ok info =>
    cases hsym : info.isSymlink with
    | true =>
      exfalso
      simp [isUnsafeFile, hstat, hsym] at h
    | false =>
      cases hrp : env.evalSymlinks p with
      | none =>
        exfalso
        simp [isUnsafeFile, hstat, hsym, hrp] at h
      | some rp =>
        cases hrt : env.evalSymlinks tempDir with
        | none =>
          exfalso
          simp [isUnsafeFile, hstat, hsym, hrp, hrt] at h
        | some rt =>
          cases hin : compLeads rt rp with
          | false =>
            exfalso
            simp [isUnsafeFile, hstat, hsym, hrp, hrt, hin] at h
          | true =>
            refine ⟨fun info' hinfo' => ?_, rp, rt, rfl, rfl, hin⟩
            cases hinfo'
            exact hsym

/-- Claim C2: log cleanup never unlinks a symlink and never unlinks a
file whose fully-resolved path lies outside the temp directory: the
unsafe-file check reports a symlink unsafe with the symlink reason,
reports a file resolving outside the temp directory unsafe with the
outside reason, and every file the cleanup actually deletes passed the
unsafe-file check (so it was no symlink and resolved inside the temp
directory). -/
theorem cleanup_safety (env : LogFsEnv) (tempDir : PathC)
    (cands : List LogCandidate) :
    (∀ path info, env.stat path = .ok info → info.isSymlink = true →
      isUnsafeFile env path tempDir =
        (true, gs "refusing to delete symlink")) ∧
    (∀ path info rp rt, env.stat path = .ok info → info.isSymlink = false →
      env.evalSymlinks path = some rp → env.evalSymlinks tempDir = some rt →
      compLeads rt rp = false →
      isUnsafeFile env path tempDir = (true, gs "file is outside tempDir")) ∧
    (∀ p ∈ (cleanupOldLogs env tempDir cands).deletedFiles,
      (isUnsafeFile env p tempDir).1 = false ∧
      (∀ info, env.stat p = .ok info → info.isSymlink = false) ∧
      (∃ rp rt, env.evalSymlinks p = some rp ∧
        env.evalSymlinks tempDir = some rt ∧ compLeads rt rp = true)) := by
  refine ⟨?_, ?_, ?_⟩
  · intro path info hstat hsym
    unfold isUnsafeFile
    rw [hstat]
    simp [hsym]
  · intro path info rp rt hstat hsym hrp hrt hout
    unfold isUnsafeFile
    rw [hstat]
    simp [hsym, hrp, hrt, hout]
  · intro p hp
    have hsafe : (isUnsafeFile env p tempDir).1 = false :=
      cleanup_deletedFiles_safe env tempDir cands {} (by simp) p hp
    exact ⟨hsafe, (isUnsafeFile_false_elim env tempDir p hsafe).1,
      (isUnsafeFile_false_elim env tempDir p hsafe).2⟩

def c2Temp : PathC := [gs "tmp"]

def c2SymPath : PathC := [gs "tmp", gs "codeagent-wrapper-1.log"]

def c2OutPath : PathC := [gs "etc", gs "passwd"]

def c2GoodPath : PathC := [gs "tmp", gs "codeagent-wrapper-2.log"]

/-- A scan environment with one symlink, one file resolving outside the
temp directory, one ordinary orphan file; no PID is running. -/
def c2Env : LogFsEnv :=
  { stat := fun p => if p = c2SymPath then StatOutcome.ok { isSymlink := true }
      else StatOutcome.ok {},
    evalSymlinks := fun p => some p,
    pidExists := fun _ => .ok false,
    createTimeMs := fun _ => none,
    removeOk := fun _ => true,
    nowMs := 0 }

def c2Cands : List LogCandidate :=
  [{ path := c2SymPath, pid := 1 }, { path := c2OutPath, pid := 3 },
   { path := c2GoodPath, pid := 2 }]

theorem cleanup_safety_witness :
    (cleanupOldLogs c2Env c2Temp c2Cands).deletedFiles = [c2GoodPath] ∧
    (cleanupOldLogs c2Env c2Temp c2Cands).keptFiles =
      [c2SymPath, c2OutPath] ∧
    isUnsafeFile c2Env c2SymPath c2Temp =
      (true, gs "refusing to delete symlink") ∧
    isUnsafeFile c2Env c2OutPath c2Temp =
      (true, gs "file is outside tempDir") ∧
    ((∀ path info, c2Env.stat path = .ok info → info.isSymlink = true →
      isUnsafeFile c2Env path c2Temp =
        (true, gs "refusing to delete symlink")) ∧
    (∀ path info rp rt, c2Env.stat path = .ok info → info.isSymlink = false →
      c2Env.evalSymlinks path = some rp → c2Env.evalSymlinks c2Temp = some rt →
      compLeads rt rp = false →
      isUnsafeFile c2Env path c2Temp = (true, gs "file is outside tempDir")) ∧
    (∀ p ∈ (cleanupOldLogs c2Env c2Temp c2Cands).deletedFiles,
      (isUnsafeFile c2Env p c2Temp).1 = false ∧
      (∀ info, c2Env.stat p = .ok info → info.isSymlink = false) ∧
      (∃ rp rt, c2Env.evalSymlinks p = some rp ∧
        c2Env.evalSymlinks c2Temp = some rt ∧ compLeads rt rp = true))) :=
  ⟨by decide, by decide, by decide, by decide,
    cleanup_safety c2Env c2Temp c2Cands⟩

/-- Claim C3 counterexample: when every inspection of the process
errors (PidExists returns a non-classified error, so the process is
assumed live; CreateTime errors, so the start time is unknown) and the
file is eight days old, the file is treated as PID-reused and deleted —
refuting "(c) on any inspection error the process is assumed live and
the file is kept". -/
def c3Path : PathC := [gs "tmp", gs "codeagent-wrapper-1234.log"]

def c3Env : LogFsEnv :=
  { stat := fun _ => StatOutcome.ok { isSymlink := false, mtimeMs := 0 },
    evalSymlinks := fun p => some p,
    pidExists := fun _ => .errOther,
    createTimeMs := fun _ => none,
    removeOk := fun _ => true,
    nowMs := 8 * 24 * 60 * 60 * 1000 }

theorem pidReuse_inspection_error_counterexample :
    isProcessRunning c3Env 1234 = true ∧
    isPIDReused c3Env c3Path 1234 = true ∧
    (cleanupOldLogs c3Env c2Temp
        [{ path := c3Path, pid := 1234 }]).deletedFiles = [c3Path] :=
  ⟨by decide, by decide, by decide⟩

/-- Claim C3 as amended: (a) a PID not reported as running makes the
file reclaimable; (b) a running PID whose observed start time is later
than the file's mtime makes the file reclaimable (PID reuse); (c) a
stat failure on the file makes the reuse check report false, so a file
of a running process is kept; (d) when the process start time cannot be
determined, a file is treated as reused only when its mtime is more
than seven days in the past — such old files are reclaimed even though
the start-time inspection may have failed. -/
theorem pidReuse_liveness_amended (env : LogFsEnv) (path : PathC)
    (pid : Int) :
    (isProcessRunning env pid = false → isReclaimable env path pid = true) ∧
    (∀ info startMs, env.stat path = .ok info →
      getProcessStartTime env pid = some startMs →
      info.mtimeMs < startMs → isReclaimable env path pid = true) ∧
    (env.stat path = .fail → isPIDReused env path pid = false ∧
      (isProcessRunning env pid = true →
        isReclaimable env path pid = false)) ∧
    (∀ info, env.stat path = .ok info → getProcessStartTime env pid = none →
      env.nowMs - info.mtimeMs > sevenDaysMs →
      isPIDReused env path pid = true) := by
  refine ⟨?_, ?_, ?_, ?_⟩
  · intro h
    simp [isReclaimable, h]
  · intro info startMs hstat hstart hmt
    simp [isReclaimable, isPIDReused, hstat, hstart, hmt]
  · intro hstat
    have hr : isPIDReused env path pid = false := by
      simp [isPIDReused, hstat]
    exact ⟨hr, fun hrun => by simp [isReclaimable, hr, hrun]⟩
  · intro info hstat hstart hold
    simp [isPIDReused, hstat, hstart, hold]

/-- A running PID whose start time post-dates the file's mtime. -/
def c3bEnv : LogFsEnv :=
  { stat := fun _ => StatOutcome.ok { isSymlink := false, mtimeMs := 50 },
    evalSymlinks := fun p => some p,
    pidExists := fun _ => .ok true,
    createTimeMs := fun _ => some 100,
    removeOk := fun _ => true,
    nowMs := 1000 }

theorem pidReuse_liveness_amended_witness :
    isProcessRunning c3bEnv 77 = true ∧
    isPIDReused c3bEnv c3Path 77 = true ∧
    isReclaimable c3bEnv c3Path 77 = true ∧
    ((isProcessRunning c3bEnv 77 = false →
        isReclaimable c3bEnv c3Path 77 = true) ∧
    (∀ info startMs, c3bEnv.stat c3Path = .ok info →
      getProcessStartTime c3bEnv 77 = some startMs →
      info.mtimeMs < startMs → isReclaimable c3bEnv c3Path 77 = true) ∧
    (c3bEnv.stat c3Path = .fail → isPIDReused c3bEnv c3Path 77 = false ∧
      (isProcessRunning c3bEnv 77 = true →
        isReclaimable c3bEnv c3Path 77 = false)) ∧
    (∀ info, c3bEnv.stat c3Path = .ok info →
      getProcessStartTime c3bEnv 77 = none →
      c3bEnv.nowMs - info.mtimeMs > sevenDaysMs →
      isPIDReused c3bEnv c3Path 77 = true)) :=
  ⟨by decide, by decide, by decide,
    pidReuse_liveness_amended c3bEnv c3Path 77⟩

/-! ## DAG scheduler planning phase (executor.TopologicalSort)

`TopologicalSort` lives in the executor package; only its callers
(`topologicalSort` in internal/app/executor_alias.go and
`runParallelMode`) are in the corpus, so the planning phase is modelled
from the spec (§4.5): build the dependency graph rejecting unknown
dependency IDs, then stratify — layer 0 holds the tasks with no
unsatisfied dependencies, layer k+1 the tasks whose dependencies lie
wholly in layers 0..k — and when a non-empty remaining set cannot
advance, fail with a cycle error naming a task ID that participates in
a cycle.  The iteration is written with explicit fuel (one unit per
layer; `tasks.length + 1` always suffices since every round removes at
least one task). -/

def taskIDs (tasks : List TaskSpec) : List (List Char) :=
  tasks.map (fun t => t.id)

/-- All dependencies of `t` are already scheduled (present in `done`). -/
def depsSatisfiedBy (done : List (List Char)) (t : TaskSpec) : Bool :=
  t.dependencies.all (fun d => done.contains d)

/-- From a stuck task, move to the scheduled-set entry for its first
unsatisfied dependency (the step of the cycle search). -/
def stuckNext (done : List (List Char)) (S : List TaskSpec)
    (t : TaskSpec) : Option TaskSpec :=
  match t.dependencies.find? (fun d => !(done.contains d)) with
  | some d => S.find? (fun u => decide (u.id = d))
  | none => none

/-- Iterate `stuckNext` `k` times from `t`. -/
def walkFrom (done : List (List Char)) (S : List TaskSpec) :
    Nat → TaskSpec → TaskSpec
  | 0, t => t
  | k + 1, t =>
    match stuckNext done S t with
    | some u => walkFrom done S k u
    | none => t

/-- The IDs visited by the first `|S| + 1` steps of the cycle search. -/
def walkList (done : List (List Char)) (S : List TaskSpec)
    (t0 : TaskSpec) : List (List Char) :=
  (List.range (S.length + 1)).map (fun k => (walkFrom done S k t0).id)

/-- First element that repeats an earlier one (the certificate that the
walk closed a cycle). -/
def firstDup : List (List Char) → List (List Char) → Option (List Char)
  | _, [] => none
  | seen, x :: rest =>
    if x ∈ seen then some x else firstDup (x :: seen) rest

/-- The cycle error raised for a stuck non-empty remaining set, naming
the ID the cycle search found. -/
def cycleErrorFor (done : List (List Char)) (remaining : List TaskSpec) :
    List Char :=
  match remaining with
  | [] => gs "cycle detected involving task: "
  | t0 :: _ =>
    let named :=
      match firstDup [] (walkList done remaining t0) with
      | some x => x
      | none => t0.id
    gs "cycle detected involving task: " ++ named

/-- The stratification loop: peel off the layer of tasks whose
dependencies are all satisfied; error when a non-empty remaining set
cannot advance. -/
def topoLayersF : Nat → List (List Char) → List TaskSpec →
    Except (List Char) (List (List TaskSpec))
  | 0, _, _ => .ok []
  | fuel + 1, done, remaining =>
    if remaining = [] then .ok []
    else
      let layer := remaining.filter (depsSatisfiedBy done)
      if layer = [] then .error (cycleErrorFor done remaining)
      else
        (topoLayersF fuel (done ++ layer.map (fun t => t.id))
          (remaining.filter (fun t => !(depsSatisfiedBy done t)))).map
          (fun rest => layer :: rest)

/-- Modelled from the spec: `executor.TopologicalSort` (§4.5 steps 1-2).
Unknown dependency IDs are rejected first; then the layering loop
runs with enough fuel for every round to remove at least one task. -/
def topologicalSort (tasks : List TaskSpec) :
    Except (List Char) (List (List TaskSpec)) :=
  match tasks.find? (fun t =>
      t.dependencies.any (fun d => !((taskIDs tasks).contains d))) with
  | some t => .error (gs "unknown dependency in task: " ++ t.id)
  | none => topoLayersF (tasks.length + 1) [] tasks

/-- The dependency edge relation on IDs: `dependsOn tasks a b` holds
when the task with ID `a` declares `b` among its dependencies (the
spec's edge (b, a)). -/
def dependsOn (tasks : List TaskSpec) (a b : List Char) : Prop :=
  ∃ t ∈ tasks, t.id = a ∧ b ∈ t.dependencies

/-- `x` lies on a dependency cycle: a non-trivial dependency chain from
`x` back to `x`. -/
def inCycle (tasks : List TaskSpec) (x : List Char) : Prop :=
  Relation.TransGen (dependsOn tasks) x x

theorem filterNot_length_lt {α : Type} {p : α → Bool} {l : List α}
    (h : ∃ x ∈ l, p x = true) :
    (l.filter (fun y => !p y)).length < l.length := by
  induction l with
  | nil => simp at h
  | cons a l ih =>
    by_cases hpa : p a = true
    · have hle := List.length_filter_le (fun y => !p y) l
      simp [List.filter_cons, hpa]
      omega
    · rcases h with ⟨x, hx, hpx⟩
      rcases List.mem_cons.mp hx with rfl | hx'
      · exact absurd hpx hpa
      · have hlt := ih ⟨x, hx', hpx⟩
        have hpa' : p a = false := by
          revert hpa; cases p a <;> simp
        simp only [List.filter_cons, hpa', Bool.not_false, if_true,
          List.length_cons]
        omega

theorem nodup_id_inj {tasks : List TaskSpec}
    (hN : (taskIDs tasks).Nodup) {t u : TaskSpec} (ht : t ∈ tasks)
    (hu : u ∈ tasks) (hid : t.id = u.id) : t = u := by
  induction tasks with
  | nil => cases ht
  | cons a rest ih =>
    have hNodup := hN
    rw [taskIDs, List.map_cons, List.nodup_cons] at hNodup
    rcases List.mem_cons.mp ht with rfl | ht' <;>
      rcases List.mem_cons.mp hu with rfl | hu'
    · rfl
    · exfalso
      apply hNodup.1
      rw [hid]
      exact List.mem_map_of_mem _ hu'
    · exfalso
      apply hNodup.1
      rw [← hid]
      exact List.mem_map_of_mem _ ht'
    · exact ih hNodup.2 ht' hu'

/-- Every node on a cycle has a dependency that is itself on a cycle. -/
theorem inCycle_step {tasks : List TaskSpec} {y : List Char}
    (h : inCycle tasks y) :
    ∃ z, dependsOn tasks y z ∧ inCycle tasks z := by
  obtain ⟨z, hyz, hzy⟩ := Relation.TransGen.head'_iff.mp h
  exact ⟨z, hyz, Relation.TransGen.tail' hzy hyz⟩

/-- A node on a cycle is the ID of some task of the batch. -/
theorem inCycle_mem {tasks : List TaskSpec} {y : List Char}
    (h : inCycle tasks y) : ∃ t ∈ tasks, t.id = y := by
  obtain ⟨z, hyz, _⟩ := inCycle_step h
  obtain ⟨t, ht, hid, _⟩ := hyz
  exact ⟨t, ht, hid⟩

theorem contains_iff_mem (l : List (List Char)) (a : List Char) :
    l.contains a = true ↔ a ∈ l := by
  simp [List.contains]

/-- Auxiliary fact for the recursion: a non-empty layer strictly
shrinks the remaining set. -/
theorem remaining_shrinks {done : List (List Char)}
    {remaining : List TaskSpec}
    (hlay : remaining.filter (depsSatisfiedBy done) ≠ []) :
    (remaining.filter (fun t => !(depsSatisfiedBy done t))).length <
      remaining.length := by
  apply filterNot_length_lt
  obtain ⟨x, hx⟩ := List.exists_mem_of_ne_nil _ hlay
  exact ⟨x, (List.mem_filter.mp hx).1, (List.mem_filter.mp hx).2⟩

theorem topoLayersF_ok_perm :
    ∀ (fuel : Nat) (done : List (List Char)) (remaining : List TaskSpec)
      (L : List (List TaskSpec)), remaining.length ≤ fuel →
      topoLayersF fuel done remaining = .ok L →
      List.Perm L.flatten remaining := by
  intro fuel
  induction fuel with
  | zero =>
    intro done remaining L hlen hok
    have hr : remaining = [] := List.length_eq_zero.mp (Nat.le_zero.mp hlen)
    subst hr
    cases hok
    simp
  | succ fuel ih =>
    intro done remaining L hlen hok
    by_cases hrem : remaining = []
    · subst hrem
      simp only [topoLayersF, if_pos rfl] at hok
      cases hok
      simp
    · simp only [topoLayersF, if_neg hrem] at hok
      by_cases hlay : remaining.filter (depsSatisfiedBy done) = []
      · rw [if_pos hlay] at hok
        cases hok
      · rw [if_neg hlay] at hok
        cases hrec : topoLayersF fuel
            (done ++ (remaining.filter (depsSatisfiedBy done)).map
              (fun t => t.id))
            (remaining.filter (fun t => !(depsSatisfiedBy done t))) with
        | error e =>
          rw [hrec] at hok
          simp [Except.map] at hok
        | ok rest =>
          rw [hrec] at hok
          simp only [Except.map, Except.ok.injEq] at hok
          subst hok
          have hlen' :
              (remaining.filter (fun t => !(depsSatisfiedBy done t))).length
                ≤ fuel := by
            have := remaining_shrinks hlay
            omega
          have hperm := ih _ _ _ hlen' hrec
          rw [List.flatten_cons]
          exact (hperm.append_left _).trans
            (List.filter_append_perm (depsSatisfiedBy done) remaining)

theorem topoLayersF_ok_layers :
    ∀ (fuel : Nat) (done : List (List Char)) (remaining : List TaskSpec)
      (L : List (List TaskSpec)), remaining.length ≤ fuel →
      topoLayersF fuel done remaining = .ok L →
      ∀ (j : Nat) (hj : j < L.length), ∀ v ∈ L.get ⟨j, hj⟩,
        ∀ d ∈ v.dependencies,
        d ∈ done ∨ ∃ i, ∃ hi : i < L.length, i < j ∧
          d ∈ taskIDs (L.get ⟨i, hi⟩) := by
  intro fuel
  induction fuel with
  | zero =>
    intro done remaining L hlen hok
    have hr : remaining = [] := List.length_eq_zero.mp (Nat.le_zero.mp hlen)
    subst hr
    cases hok
    intro j hj
    exact absurd hj (by simp)
  | succ fuel ih =>
    intro done remaining L hlen hok
    by_cases hrem : remaining = []
    · subst hrem
      simp only [topoLayersF, if_pos rfl] at hok
      cases hok
      intro j hj
      exact absurd hj (by simp)
    · simp only [topoLayersF, if_neg hrem] at hok
      by_cases hlay : remaining.filter (depsSatisfiedBy done) = []
      · rw [if_pos hlay] at hok
        cases hok
      · rw [if_neg hlay] at hok
        cases hrec : topoLayersF fuel
            (done ++ (remaining.filter (depsSatisfiedBy done)).map
              (fun t => t.id))
            (remaining.filter (fun t => !(depsSatisfiedBy done t))) with
        | error e =>
          rw [hrec] at hok
          simp [Except.map] at hok
        | ok rest =>
          rw [hrec] at hok
          simp only [Except.map, Except.ok.injEq] at hok
          subst hok
          have hlen' :
              (remaining.filter (fun t => !(depsSatisfiedBy done t))).length
                ≤ fuel := by
            have := remaining_shrinks hlay
            omega
          have hrest := ih _ _ _ hlen' hrec
          intro j hj v hv d hd
          cases j with
          | zero =>
            left
            have hsat : depsSatisfiedBy done v = true :=
              (List.mem_filter.mp (by simpa using hv)).2
            have := (List.all_eq_true.mp hsat) d hd
            exact (contains_iff_mem done d).mp (by simpa using this)
          | succ j' =>
            have hj' : j' < rest.length := by
              simpa using Nat.lt_of_succ_lt_succ hj
            have hv' : v ∈ rest.get ⟨j', hj'⟩ := by
              simpa using hv
            rcases hrest j' hj' v hv' d hd with hdone | ⟨i', hi', hij, hin⟩
            · rcases List.mem_append.mp hdone with hl | hr
              · exact Or.inl hl
              · refine Or.inr ⟨0, by simp, Nat.succ_pos _, ?_⟩
                simpa [taskIDs] using hr
            · refine Or.inr ⟨i' + 1, by simpa using Nat.succ_lt_succ hi',
                Nat.succ_lt_succ hij, ?_⟩
              simpa using hin

theorem firstDup_none :
    ∀ (l seen : List (List Char)), firstDup seen l = none →
      (∀ x ∈ l, x ∉ seen) ∧ l.Nodup := by
  intro l
  induction l with
  | nil => intro seen _; exact ⟨by simp, List.nodup_nil⟩
  | cons x rest ih =>
    intro seen h
    by_cases hx : x ∈ seen
    · simp only [firstDup, if_pos hx] at h
      cases h
    · simp only [firstDup, if_neg hx] at h
      obtain ⟨h1, h2⟩ := ih (x :: seen) h
      constructor
      · intro y hy
        rcases List.mem_cons.mp hy with rfl | hy'
        · exact hx
        · intro hys
          exact (h1 y hy') (List.mem_cons_of_mem x hys)
      · rw [List.nodup_cons]
        exact ⟨fun hxr => (h1 x hxr) (List.mem_cons_self x seen), h2⟩

theorem firstDup_some :
    ∀ (l seen : List (List Char)) (x : List Char),
      firstDup seen l = some x →
      ∃ l1 l2, l = l1 ++ x :: l2 ∧ x ∈ seen ++ l1 := by
  intro l
  induction l with
  | nil => intro seen x h; cases h
  | cons y rest ih =>
    intro seen x h
    by_cases hy : y ∈ seen
    · simp only [firstDup, if_pos hy] at h
      cases h
      exact ⟨[], rest, rfl, by simpa using hy⟩
    · simp only [firstDup, if_neg hy] at h
      obtain ⟨l1, l2, hsplit, hmem⟩ := ih (y :: seen) x h
      refine ⟨y :: l1, l2, by rw [hsplit]; rfl, ?_⟩
      simp only [List.cons_append, List.mem_cons, List.mem_append] at hmem ⊢
      tauto

theorem not_nodup_of_bound (l s : List (List Char))
    (hsub : ∀ x ∈ l, x ∈ s) (hlen : s.length < l.length) : ¬ l.Nodup := by
  intro hnd
  have h1 : l.toFinset.card = l.length := List.toFinset_card_of_nodup hnd
  have h2 : l.toFinset ⊆ s.toFinset := by
    intro a ha
    rw [List.mem_toFinset] at ha ⊢
    exact hsub a ha
  have h3 := Finset.card_le_card h2
  have h4 := s.toFinset_card_le
  omega

/-- In a stuck state (no task can advance, all dependencies are known
IDs, the scheduled/remaining split covers all tasks), the cycle-search
step is total inside the remaining set and follows a dependency edge. -/
theorem stuck_walk_total {tasks : List TaskSpec}
    {done : List (List Char)} {remaining : List TaskSpec}
    (hD : ∀ t ∈ tasks, ∀ d ∈ t.dependencies, d ∈ taskIDs tasks)
    (hsub : ∀ t ∈ remaining, t ∈ tasks)
    (hcov : ∀ t ∈ tasks, t ∈ remaining ∨ t.id ∈ done)
    (hstuck : ∀ t ∈ remaining, depsSatisfiedBy done t = false) :
    ∀ t ∈ remaining, ∃ u, stuckNext done remaining t = some u ∧
      u ∈ remaining ∧ dependsOn tasks t.id u.id := by
  intro t ht
  have hall : t.dependencies.all (fun d => done.contains d) = false :=
    hstuck t ht
  have hfind : (t.dependencies.find? (fun d => !(done.contains d))).isSome := by
    rw [List.find?_isSome]
    obtain ⟨d, hd, hnd⟩ := List.all_eq_false.mp hall
    exact ⟨d, hd, by simpa using hnd⟩
  obtain ⟨d, hd⟩ := Option.isSome_iff_exists.mp hfind
  have hdmem : d ∈ t.dependencies := List.mem_of_find?_eq_some hd
  have hdnot : done.contains d = false := by
    have := List.find?_some hd
    revert this
    cases done.contains d <;> simp
  have hdid : d ∈ taskIDs tasks := hD t (hsub t ht) d hdmem
  obtain ⟨u0, hu0, hu0id⟩ := List.mem_map.mp hdid
  have hu0rem : u0 ∈ remaining := by
    rcases hcov u0 hu0 with h | h
    · exact h
    · exfalso
      rw [hu0id] at h
      have := (contains_iff_mem done d).mpr h
      rw [hdnot] at this
      cases this
  have hfr : (remaining.find? (fun u => decide (u.id = d))).isSome := by
    rw [List.find?_isSome]
    exact ⟨u0, hu0rem, by simp [hu0id]⟩
  obtain ⟨u, hu⟩ := Option.isSome_iff_exists.mp hfr
  have humem : u ∈ remaining := List.mem_of_find?_eq_some hu
  have huid : u.id = d := by simpa using List.find?_some hu
  refine ⟨u, ?_, humem, ?_⟩
  · simp only [stuckNext, hd]
    exact hu
  · exact ⟨t, hsub t ht, rfl, by rw [huid]; exact hdmem⟩

theorem stuck_walk_mem {tasks : List TaskSpec} {done : List (List Char)}
    {remaining : List TaskSpec}
    (hD : ∀ t ∈ tasks, ∀ d ∈ t.dependencies, d ∈ taskIDs tasks)
    (hsub : ∀ t ∈ remaining, t ∈ tasks)
    (hcov : ∀ t ∈ tasks, t ∈ remaining ∨ t.id ∈ done)
    (hstuck : ∀ t ∈ remaining, depsSatisfiedBy done t = false) :
    ∀ (k : Nat), ∀ t ∈ remaining, walkFrom done remaining k t ∈ remaining := by
  intro k
  induction k with
  | zero => intro t ht; exact ht
  | succ k ih =>
    intro t ht
    obtain ⟨u, hnext, humem, _⟩ := stuck_walk_total hD hsub hcov hstuck t ht
    simp only [walkFrom, hnext]
    exact ih u humem

theorem stuck_walk_chain {tasks : List TaskSpec} {done : List (List Char)}
    {remaining : List TaskSpec}
    (hD : ∀ t ∈ tasks, ∀ d ∈ t.dependencies, d ∈ taskIDs tasks)
    (hsub : ∀ t ∈ remaining, t ∈ tasks)
    (hcov : ∀ t ∈ tasks, t ∈ remaining ∨ t.id ∈ done)
    (hstuck : ∀ t ∈ remaining, depsSatisfiedBy done t = false) :
    ∀ (k : Nat), ∀ t ∈ remaining,
      dependsOn tasks (walkFrom done remaining k t).id
        (walkFrom done remaining (k + 1) t).id := by
  intro k
  induction k with
  | zero =>
    intro t ht
    obtain ⟨u, hnext, _, hdep⟩ := stuck_walk_total hD hsub hcov hstuck t ht
    simp only [walkFrom, hnext]
    exact hdep
  | succ k ih =>
    intro t ht
    obtain ⟨u, hnext, humem, _⟩ := stuck_walk_total hD hsub hcov hstuck t ht
    show dependsOn tasks
      (walkFrom done remaining (k + 1) t).id
      (walkFrom done remaining (k + 1 + 1) t).id
    simp only [walkFrom, hnext]
    exact ih u humem

theorem stuck_chain_refl {tasks : List TaskSpec} {done : List (List Char)}
    {remaining : List TaskSpec}
    (hD : ∀ t ∈ tasks, ∀ d ∈ t.dependencies, d ∈ taskIDs tasks)
    (hsub : ∀ t ∈ remaining, t ∈ tasks)
    (hcov : ∀ t ∈ tasks, t ∈ remaining ∨ t.id ∈ done)
    (hstuck : ∀ t ∈ remaining, depsSatisfiedBy done t = false)
    (t0 : TaskSpec) (ht0 : t0 ∈ remaining) :
    ∀ (a b : Nat), a ≤ b →
      Relation.ReflTransGen (dependsOn tasks)
        (walkFrom done remaining a t0).id
        (walkFrom done remaining b t0).id := by
  intro a b hab
  induction b, hab using Nat.le_induction with
  | base => exact Relation.ReflTransGen.refl
  | succ n hn ih =>
    exact ih.tail (stuck_walk_chain hD hsub hcov hstuck n t0 ht0)

theorem walkList_get? (done : List (List Char)) (S : List TaskSpec)
    (t0 : TaskSpec) (k : Nat) (hk : k < S.length + 1) :
    (walkList done S t0).get? k = some ((walkFrom done S k t0).id) := by
  simp [walkList, List.get?_map, List.get?_range, hk]

/-- In a stuck non-empty state, the cycle search names an ID that lies
on a dependency cycle, and the raised error carries exactly that ID. -/
theorem stuck_cycle_found {tasks : List TaskSpec}
    {done : List (List Char)} {t0 : TaskSpec} {rest0 : List TaskSpec}
    (hD : ∀ t ∈ tasks, ∀ d ∈ t.dependencies, d ∈ taskIDs tasks)
    (hsub : ∀ t ∈ t0 :: rest0, t ∈ tasks)
    (hcov : ∀ t ∈ tasks, t ∈ t0 :: rest0 ∨ t.id ∈ done)
    (hstuck : ∀ t ∈ t0 :: rest0, depsSatisfiedBy done t = false) :
    ∃ y, inCycle tasks y ∧
      cycleErrorFor done (t0 :: rest0) =
        gs "cycle detected involving task: " ++ y := by
  have ht0 : t0 ∈ t0 :: rest0 := List.mem_cons_self t0 rest0
  have hsubl : ∀ x ∈ walkList done (t0 :: rest0) t0,
      x ∈ taskIDs (t0 :: rest0) := by
    intro x hx
    rw [walkList, List.mem_map] at hx
    obtain ⟨k, _, rfl⟩ := hx
    exact List.mem_map_of_mem _
      (stuck_walk_mem hD hsub hcov hstuck k t0 ht0)
  have hlenW : (taskIDs (t0 :: rest0)).length <
      (walkList done (t0 :: rest0) t0).length := by
    simp [walkList, taskIDs]
  have hnn := not_nodup_of_bound _ _ hsubl hlenW
  cases hfd : firstDup [] (walkList done (t0 :: rest0) t0) with
  | none => exact absurd (firstDup_none _ [] hfd).2 hnn
  | some x =>
    obtain ⟨l1, l2, hsplit, hmem⟩ := firstDup_some _ [] x hfd
    rw [List.nil_append] at hmem
    obtain ⟨p, q, hpq⟩ := List.append_of_mem hmem
    have hwl : walkList done (t0 :: rest0) t0 = p ++ x :: (q ++ x :: l2) := by
      rw [hsplit, hpq]
      simp
    have hlenw : (walkList done (t0 :: rest0) t0).length =
        (t0 :: rest0).length + 1 := by
      simp [walkList]
    have hlens : (t0 :: rest0).length + 1 =
        p.length + (q.length + (l2.length + 2)) := by
      have h := congrArg List.length hwl
      rw [hlenw] at h
      simp only [List.length_append, List.length_cons] at h ⊢
      omega
    have hi_lt : p.length < (t0 :: rest0).length + 1 := by omega
    have hj_lt : p.length + q.length + 1 < (t0 :: rest0).length + 1 := by
      omega
    have e1 : (walkList done (t0 :: rest0) t0).get? p.length = some x := by
      rw [hwl, List.get?_append_right (le_refl p.length)]
      simp
    have e2 : (walkList done (t0 :: rest0) t0).get?
        (p.length + q.length + 1) = some x := by
      rw [hwl, List.get?_append_right
        (by omega : p.length ≤ p.length + q.length + 1)]
      have hsub1 : p.length + q.length + 1 - p.length = q.length + 1 := by
        omega
      rw [hsub1, List.get?_cons_succ,
        List.get?_append_right (le_refl q.length)]
      simp
    have w1 := walkList_get? done (t0 :: rest0) t0 p.length hi_lt
    have w2 := walkList_get? done (t0 :: rest0) t0
      (p.length + q.length + 1) hj_lt
    rw [w1] at e1
    rw [w2] at e2
    have hx1 := Option.some.inj e1
    have hx2 := Option.some.inj e2
    have htg : Relation.TransGen (dependsOn tasks)
        (walkFrom done (t0 :: rest0) p.length t0).id
        (walkFrom done (t0 :: rest0) (p.length + q.length + 1) t0).id :=
      Relation.TransGen.head'
        (stuck_walk_chain hD hsub hcov hstuck p.length t0 ht0)
        (stuck_chain_refl hD hsub hcov hstuck t0 ht0 (p.length + 1)
          (p.length + q.length + 1) (by omega))
    rw [hx1, hx2] at htg
    exact ⟨x, htg, by simp [cycleErrorFor, hfd]⟩

/-- The cycle half of the planning contract: with a cycle present and
the loop invariants holding, the stratification loop errors with a
message naming a cycle participant. -/
theorem topoLayersF_cycle {tasks : List TaskSpec}
    (hN : (taskIDs tasks).Nodup)
    (hD : ∀ t ∈ tasks, ∀ d ∈ t.dependencies, d ∈ taskIDs tasks) :
    ∀ (fuel : Nat) (done : List (List Char)) (remaining : List TaskSpec),
      remaining.length ≤ fuel →
      (∀ t ∈ remaining, t ∈ tasks) →
      (∀ t ∈ tasks, t ∈ remaining ∨ t.id ∈ done) →
      (∀ y, inCycle tasks y → y ∉ done) →
      (∃ x, inCycle tasks x) →
      ∃ y, inCycle tasks y ∧
        topoLayersF fuel done remaining =
          .error (gs "cycle detected involving task: " ++ y) := by
  intro fuel
  induction fuel with
  | zero =>
    intro done remaining hlen hsub hcov hdone hcyc
    exfalso
    obtain ⟨x, hx⟩ := hcyc
    obtain ⟨t, ht, htid⟩ := inCycle_mem hx
    rcases hcov t ht with h | h
    · rw [List.length_eq_zero.mp (Nat.le_zero.mp hlen)] at h
      cases h
    · exact hdone x hx (htid ▸ h)
  | succ fuel ih =>
    intro done remaining hlen hsub hcov hdone hcyc
    obtain ⟨x, hx⟩ := hcyc
    obtain ⟨t, ht, htid⟩ := inCycle_mem hx
    have htrem : t ∈ remaining := by
      rcases hcov t ht with h | h
      · exact h
      · exact absurd (htid ▸ h) (hdone x hx)
    have hrem : remaining ≠ [] := fun h => by
      rw [h] at htrem
      cases htrem
    by_cases hlay : remaining.filter (depsSatisfiedBy done) = []
    · have hstuck : ∀ u ∈ remaining, depsSatisfiedBy done u = false := by
        intro u hu
        have := List.filter_eq_nil_iff.mp hlay u hu
        revert this
        cases depsSatisfiedBy done u <;> simp
      obtain ⟨t0, rest0, rfl⟩ := List.exists_cons_of_ne_nil hrem
      obtain ⟨y, hyc, herr⟩ := stuck_cycle_found hD hsub hcov hstuck
      refine ⟨y, hyc, ?_⟩
      rw [show topoLayersF (fuel + 1) done (t0 :: rest0) =
        .error (cycleErrorFor done (t0 :: rest0)) from by
          simp only [topoLayersF, if_neg hrem, if_pos hlay]]
      rw [herr]
    · have hlen' :
          (remaining.filter (fun t => !(depsSatisfiedBy done t))).length
            ≤ fuel := by
        have := remaining_shrinks hlay
        omega
      have hsub' :
          ∀ u ∈ remaining.filter (fun t => !(depsSatisfiedBy done t)),
            u ∈ tasks :=
        fun u hu => hsub u (List.mem_filter.mp hu).1
      have hcov' : ∀ u ∈ tasks,
          u ∈ remaining.filter (fun t => !(depsSatisfiedBy done t)) ∨
          u.id ∈ done ++
            (remaining.filter (depsSatisfiedBy done)).map (fun t => t.id) := by
        intro u hu
        rcases hcov u hu with h | h
        · by_cases hs : depsSatisfiedBy done u = true
          · right
            exact List.mem_append_right _
              (List.mem_map_of_mem _ (List.mem_filter.mpr ⟨h, hs⟩))
          · left
            refine List.mem_filter.mpr ⟨h, ?_⟩
            revert hs
            cases depsSatisfiedBy done u <;> simp
        · exact Or.inr (List.mem_append_left _ h)
      have hdone' : ∀ y, inCycle tasks y →
          y ∉ done ++
            (remaining.filter (depsSatisfiedBy done)).map (fun t => t.id) := by
        intro y hy hmem
        rcases List.mem_append.mp hmem with h | h
        · exact hdone y hy h
        · obtain ⟨u, hu, huid⟩ := List.mem_map.mp h
          have husat : depsSatisfiedBy done u = true :=
            (List.mem_filter.mp hu).2
          have hurem : u ∈ remaining := (List.mem_filter.mp hu).1
          obtain ⟨z, hyz, hzc⟩ := inCycle_step hy
          obtain ⟨ty, hty, htyid, hz⟩ := hyz
          have heq : ty = u :=
            nodup_id_inj hN hty (hsub u hurem) (by rw [htyid, huid])
          have hz' : z ∈ u.dependencies := heq ▸ hz
          have := (List.all_eq_true.mp husat) z hz'
          have hzdone : z ∈ done :=
            (contains_iff_mem done z).mp (by simpa using this)
          exact hdone z hzc hzdone
      obtain ⟨y, hyc, herr⟩ := ih
        (done ++ (remaining.filter (depsSatisfiedBy done)).map (fun t => t.id))
        (remaining.filter (fun t => !(depsSatisfiedBy done t)))
        hlen' hsub' hcov' hdone' ⟨x, hx⟩
      refine ⟨y, hyc, ?_⟩
      simp only [topoLayersF, if_neg hrem, if_neg hlay, herr, Except.map]

theorem countP_eq_one_of_nodup_mem (l : List (List Char)) (a : List Char)
    (hnd : l.Nodup) (ha : a ∈ l) :
    l.countP (fun x => decide (x = a)) = 1 := by
  induction l with
  | nil => cases ha
  | cons b rest ih =>
    rw [List.nodup_cons] at hnd
    rcases List.mem_cons.mp ha with heq | ha'
    · subst heq
      have hz : rest.countP (fun x => decide (x = a)) = 0 := by
        rw [List.countP_eq_zero]
        intro y hy
        simp only [decide_eq_true_eq]
        rintro rfl
        exact hnd.1 hy
      simp [List.countP_cons, hz]
    · have hne : decide (b = a) = false := by
        simp only [decide_eq_false_iff_not]
        rintro rfl
        exact hnd.1 ha'
      simp [List.countP_cons, hne, ih hnd.2 ha']

/-- Claim C1: for every task list with unique IDs and no dangling
dependency references (the batch invariants of spec §3) that the
planning phase accepts, every task appears in exactly one layer and
every dependency of a layer-`j` task lies in some strictly earlier
layer (so layer(u) < layer(v) for every edge (u, v)); and for every
such input whose dependency graph contains a cycle, planning fails
with an error that names a task ID participating in a cycle. -/
theorem topologicalSort_spec (tasks : List TaskSpec)
    (hN : (taskIDs tasks).Nodup)
    (hD : ∀ t ∈ tasks, ∀ d ∈ t.dependencies, d ∈ taskIDs tasks) :
    (∀ L, topologicalSort tasks = .ok L →
      (∀ t ∈ tasks,
        (L.map (fun layer =>
          layer.countP (fun u => decide (u.id = t.id)))).sum = 1) ∧
      (∀ (j : Nat) (hj : j < L.length), ∀ v ∈ L.get ⟨j, hj⟩,
        ∀ d ∈ v.dependencies,
        ∃ i, ∃ hi : i < L.length, i < j ∧ d ∈ taskIDs (L.get ⟨i, hi⟩))) ∧
    ((∃ x, inCycle tasks x) → ∃ y, inCycle tasks y ∧
      topologicalSort tasks =
        .error (gs "cycle detected involving task: " ++ y)) := by
  have hfind : tasks.find? (fun t =>
      t.dependencies.any (fun d => !((taskIDs tasks).contains d))) = none := by
    rw [List.find?_eq_none]
    intro t ht hp
    rw [List.any_eq_true] at hp
    obtain ⟨d, hd, hnd⟩ := hp
    have hmem := hD t ht d hd
    rw [← contains_iff_mem] at hmem
    rw [hmem] at hnd
    cases hnd
  constructor
  · intro L hok
    simp only [topologicalSort, hfind] at hok
    have hperm := topoLayersF_ok_perm _ [] tasks L (by omega) hok
    constructor
    · intro t ht
      have hcount := hperm.countP_eq (fun u => decide (u.id = t.id))
      have hflat : (L.map (fun layer =>
          layer.countP (fun u => decide (u.id = t.id)))).sum =
            L.flatten.countP (fun u => decide (u.id = t.id)) :=
        (List.countP_flatten (fun u => decide (u.id = t.id)) L).symm
      have h1 : tasks.countP (fun u => decide (u.id = t.id)) = 1 := by
        have hmap : (taskIDs tasks).countP (fun x => decide (x = t.id)) =
            tasks.countP (fun u => decide (u.id = t.id)) := by
          rw [taskIDs, List.countP_map]
          rfl
        rw [← hmap]
        exact countP_eq_one_of_nodup_mem _ _ hN
          (List.mem_map_of_mem _ ht)
      rw [hflat, hcount, h1]
    · have hlayers := topoLayersF_ok_layers _ [] tasks L (by omega) hok
      intro j hj v hv d hd
      rcases hlayers j hj v hv d hd with h | h
      · exact absurd h (List.not_mem_nil d)
      · exact h
  · intro hcyc
    obtain ⟨y, hy, herr⟩ := topoLayersF_cycle hN hD (tasks.length + 1) []
      tasks (by omega) (fun t ht => ht) (fun t ht => Or.inl ht)
      (fun y _ => List.not_mem_nil y) hcyc
    refine ⟨y, hy, ?_⟩
    simp only [topologicalSort, hfind, herr]

def c1TaskA : TaskSpec := { id := gs "a", dependencies := [gs "b"] }

def c1TaskB : TaskSpec := { id := gs "b", dependencies := [gs "a"] }

/-- The two-task cycle of spec §8 scenario 3. -/
def c1Cyc : List TaskSpec := [c1TaskA, c1TaskB]

theorem topologicalSort_spec_witness :
    (taskIDs c1Cyc).Nodup ∧
    (∀ t ∈ c1Cyc, ∀ d ∈ t.dependencies, d ∈ taskIDs c1Cyc) ∧
    (∃ x, inCycle c1Cyc x) ∧
    ((∀ L, topologicalSort c1Cyc = .ok L →
      (∀ t ∈ c1Cyc,
        (L.map (fun layer =>
          layer.countP (fun u => decide (u.id = t.id)))).sum = 1) ∧
      (∀ (j : Nat) (hj : j < L.length), ∀ v ∈ L.get ⟨j, hj⟩,
        ∀ d ∈ v.dependencies,
        ∃ i, ∃ hi : i < L.length, i < j ∧ d ∈ taskIDs (L.get ⟨i, hi⟩))) ∧
    ((∃ x, inCycle c1Cyc x) → ∃ y, inCycle c1Cyc y ∧
      topologicalSort c1Cyc =
        .error (gs "cycle detected involving task: " ++ y))) :=
  ⟨by decide, by decide,
    ⟨gs "a", Relation.TransGen.tail
      (Relation.TransGen.single
        (show dependsOn c1Cyc (gs "a") (gs "b") from
          ⟨c1TaskA, by decide, by decide, by decide⟩))
      (show dependsOn c1Cyc (gs "b") (gs "a") from
        ⟨c1TaskB, by decide, by decide, by decide⟩)⟩,
    topologicalSort_spec c1Cyc (by decide) (by decide)⟩

end CodeagentWrapper
